import Mathlib

/-!
# PixelSyncOIT: per-pixel linked-list transparency, trajectory conversion, histograms

A shallow embedding of
* the per-pixel linked-list renderer declared in `src/OIT/OIT_LinkedList.hpp`
  (its passes are described in the specification, sections 4.2 to 4.4),
* `convertLatLonToCartesian`, `exportObjFile` and `loadNetCdfFile` of
  `src/Utils/NetCDFConverter.cpp`,
* `MultiVarWindow::setVariables` and `MultiVarWindow::computeHistograms` of
  `src/MultiVarWindow.cpp`.

Conventions. In the trajectory conversion and in the bucket index of the histograms an
operation on `float` or `double` is the exact operation followed by the IEEE 754 rounding
to nearest, ties to even, of its format (`toFloat`, `toDouble`), with infinities and NaN;
the sign of a zero is not kept. The numbers of the input arrays, the attributes, the
bounds of a variable, the histogram counts and the colors and depths of the renderer are
rational numbers that stand for finite floats; comparisons, `min`, `max` and copies of
them are exact, and the counts of a histogram, their normalization and the compositing
of the renderer are computed on them without rounding. `log`, called without `std::`, is
the function of `math.h` on `double`; its value on an argument above zero is a parameter
`log : ℚ → ℚ`. A `size_t` or an array index is a natural number. An operation whose C++
behaviour is undefined (an integer cast of a NaN, of an infinity or of a value outside
`int32_t`, an out-of-range `[]`) or that throws inside `computeHistograms` makes the
embedded function return `none`; elsewhere a thrown exception and `exit` are outcomes of
their own.
-/

namespace PixelSyncOIT

/-! ## Per-pixel linked list (OIT_LinkedList) -/

/-- RGBA color of a fragment, `glm::vec4`. -/
structure Color where
  r : ℚ
  g : ℚ
  b : ℚ
  a : ℚ
deriving DecidableEq

/-- Constant `linkedListEntriesPerPixel` of `OIT_LinkedList.hpp`. -/
def linkedListEntriesPerPixel : Nat := 8

/-- Record `LinkedListFragmentNode` of `OIT_LinkedList.hpp`. The field `next` is the
index of the next node in the fragment buffer; the end-of-list sentinel is `none`.
The padding word carries no information and is left out. -/
structure LinkedListFragmentNode where
  color : Color
  depth : ℚ
  used : Nat
  next : Option Nat
deriving DecidableEq

/-- Modelled from the spec: one rasterized transparent fragment handed to the gather pass
(section 4.3), which is not among the sources: the index of the pixel it covers, its
color and its view-space depth. -/
structure Fragment where
  pixel : Nat
  color : Color
  depth : ℚ
deriving DecidableEq

/-- Buffers owned by `OIT_LinkedList`: `fragmentBuffer`, `startOffsetBuffer` and
`atomicCounterBuffer`, together with the resolution they were sized for (section 4.1 of
the specification). Only the slots below `width * height * linkedListEntriesPerPixel`
of `fragmentBuffer` and the entries below `width * height` of `startOffsetBuffer` are
storage. -/
structure OIT_LinkedList where
  width : Nat
  height : Nat
  fragmentBuffer : Nat → LinkedListFragmentNode
  startOffsetBuffer : Nat → Option Nat
  atomicCounterBuffer : Nat

/-- Modelled from the spec: the number of slots of the fragment buffer, which
`resolutionChanged` (not among the sources) allocates: `width * height *
linkedListEntriesPerPixel` (sections 3 and 4.1). -/
def OIT_LinkedList.capacity (s : OIT_LinkedList) : Nat :=
  s.width * s.height * linkedListEntriesPerPixel

/-- Modelled from the spec: `OIT_LinkedList::clear` (the Clear Pass of section 4.2),
whose body is not among the sources. Every head-offset entry becomes the sentinel and
the allocation counter becomes zero; the fragment buffer is left as it is. -/
def OIT_LinkedList.clear (s : OIT_LinkedList) : OIT_LinkedList :=
  { s with startOffsetBuffer := fun _ => none, atomicCounterBuffer := 0 }

/-- Modelled from the spec: `OIT_LinkedList::gatherBegin` (section 4.1), whose body is
not among the sources: it triggers the Clear Pass. -/
def OIT_LinkedList.gatherBegin (s : OIT_LinkedList) : OIT_LinkedList :=
  s.clear

/-- Modelled from the spec: one invocation of the gather shader (section 4.3), which is
not among the sources. The counter is incremented and its old value is the slot; a
slot at or beyond the capacity discards the fragment; otherwise the head entry of the
pixel is exchanged with the slot and the node is written with the old head as `next`. -/
def OIT_LinkedList.gather (s : OIT_LinkedList) (f : Fragment) : OIT_LinkedList :=
  let slot := s.atomicCounterBuffer
  if s.capacity ≤ slot then
    { s with atomicCounterBuffer := slot + 1 }
  else
    let next := s.startOffsetBuffer f.pixel
    { s with
      atomicCounterBuffer := slot + 1
      startOffsetBuffer := fun p => if p = f.pixel then some slot else s.startOffsetBuffer p
      fragmentBuffer := fun i =>
        if i = slot then { color := f.color, depth := f.depth, used := 1, next := next }
        else s.fragmentBuffer i }

/-- Modelled from the spec: the transparent geometry of one frame, submitted fragment by
fragment between `gatherBegin` and `gatherEnd` (the render loop of section 6, which is
not among the sources). -/
def OIT_LinkedList.gatherAll (s : OIT_LinkedList) (fs : List Fragment) : OIT_LinkedList :=
  fs.foldl OIT_LinkedList.gather s

/-- Modelled from the spec: `OIT_LinkedList::gatherEnd` (section 4.1), whose body is not
among the sources; it changes none of the three buffers. -/
def OIT_LinkedList.gatherEnd (s : OIT_LinkedList) : OIT_LinkedList :=
  s

/-- Modelled from the spec: the list walk of the resolve shader (section 4.4, steps 1
and 2), which is not among the sources. Starting from `o`, at most `fuel` nodes are
read along `next`; the result lists each index read with the node found there. -/
def walk (buf : Nat → LinkedListFragmentNode) : Nat → Option Nat → List (Nat × LinkedListFragmentNode)
  | 0, _ => []
  | _ + 1, none => []
  | fuel + 1, some i => (i, buf i) :: walk buf fuel (buf i).next

/-- Modelled from the spec: insertion of one node into a list sorted by ascending
depth, the inner loop of the insertion sort of section 4.4, step 3. -/
def insertByDepth (n : LinkedListFragmentNode) : List LinkedListFragmentNode → List LinkedListFragmentNode
  | [] => [n]
  | m :: l => if n.depth ≤ m.depth then n :: m :: l else m :: insertByDepth n l

/-- Modelled from the spec: the insertion sort by ascending depth of section 4.4,
step 3 (nearest fragment first). -/
def sortByDepth : List LinkedListFragmentNode → List LinkedListFragmentNode
  | [] => []
  | n :: l => insertByDepth n (sortByDepth l)

/-- Modelled from the spec: standard alpha-over blending of a fragment color `src` on
top of the color `dst` behind it (section 4.4, step 4). -/
def blendOver (src dst : Color) : Color :=
  { r := src.r * src.a + dst.r * (1 - src.a)
    g := src.g * src.a + dst.g * (1 - src.a)
    b := src.b * src.a + dst.b * (1 - src.a)
    a := src.a + dst.a * (1 - src.a) }

/-- Modelled from the spec: back-to-front compositing of the depth-sorted fragments
over the underlying scene color (section 4.4, step 4). The list is nearest first, so
the last element is blended first. -/
def composite (background : Color) (sorted : List LinkedListFragmentNode) : Color :=
  sorted.foldr (fun n dst => blendOver n.color dst) background

/-- Modelled from the spec: the fragments the resolve shader collects for `pixel`
(section 4.4, steps 1 and 2): at most `linkedListEntriesPerPixel` nodes from the head. -/
def OIT_LinkedList.collected (s : OIT_LinkedList) (pixel : Nat) : List LinkedListFragmentNode :=
  (walk s.fragmentBuffer linkedListEntriesPerPixel (s.startOffsetBuffer pixel)).map Prod.snd

/-- Modelled from the spec: the resolved list of `pixel`, the collected fragments sorted
by depth (section 4.4, step 3). -/
def OIT_LinkedList.resolved (s : OIT_LinkedList) (pixel : Nat) : List LinkedListFragmentNode :=
  sortByDepth (s.collected pixel)

/-- Modelled from the spec: `OIT_LinkedList::renderToScreen` (the Resolve/Blit Pass of
section 4.4), whose body and shader are not among the sources, for one pixel: the color
written to the framebuffer over the underlying scene color `background`. -/
def OIT_LinkedList.renderToScreen (s : OIT_LinkedList) (background : Color) (pixel : Nat) : Color :=
  composite background (s.resolved pixel)

/-- Modelled from the spec: one frame of the render loop (section 6, not among the
sources) for the pixel `pixel`: `gatherBegin`, the submitted fragments, `gatherEnd`,
`renderToScreen`. -/
def OIT_LinkedList.frame (s : OIT_LinkedList) (fs : List Fragment) (background : Color)
    (pixel : Nat) : Color :=
  ((s.gatherBegin.gatherAll fs).gatherEnd).renderToScreen background pixel

/-! ## Floating-point values and rounding (IEEE 754, round to nearest, ties to even) -/

/-- A value of type `float` or `double`: a finite number, an infinity with its sign, or a
NaN. The sign of a zero is not kept. -/
inductive FloatValue where
  | finite (q : ℚ)
  | infinity (negative : Bool)
  | nan
deriving DecidableEq

/-- A numeral used as a floating-point value. -/
instance (n : Nat) : OfNat FloatValue n := ⟨FloatValue.finite n⟩

/-- Largest finite `float`, `(2 - 2^(-23)) * 2^127`. -/
def FLT_MAX : ℚ := 340282346638528859811704183484516925440

/-- Largest finite `double`, `(2 - 2^(-52)) * 2^1023`. -/
def DBL_MAX : ℚ := (2 ^ 53 - 1) * 2 ^ 971

/-- Rounding of a number to the nearest integer, a tie going to the even one. -/
def roundHalfEven (m : ℚ) : Int :=
  if m - ⌊m⌋ < 1 / 2 then ⌊m⌋
  else if 1 / 2 < m - ⌊m⌋ then ⌊m⌋ + 1
  else if ⌊m⌋ % 2 = 0 then ⌊m⌋ else ⌊m⌋ + 1

/-- Rounding of a number to the nearest binary floating-point number with `precision`
significand bits and least exponent `emin` (gradual underflow below `2 ^ emin`, no upper
bound on the exponent): the number is rounded to a multiple of the unit in the last place
of its binade. -/
def roundNearestEven (precision : Nat) (emin : Int) (q : ℚ) : ℚ :=
  roundHalfEven (q / 2 ^ (max (Int.log 2 |q|) emin + 1 - (precision : Int))) *
    2 ^ (max (Int.log 2 |q|) emin + 1 - (precision : Int))

/-- The `float` that an operation with the exact result `q` returns: `q` rounded to 24
significand bits, or an infinity when the rounded number exceeds `FLT_MAX`. -/
def toFloat (q : ℚ) : FloatValue :=
  if |roundNearestEven 24 (-126) q| ≤ FLT_MAX then .finite (roundNearestEven 24 (-126) q)
  else .infinity (decide (q < 0))

/-- The `double` that an operation with the exact result `q` returns: `q` rounded to 53
significand bits, or an infinity when the rounded number exceeds `DBL_MAX`. -/
def toDouble (q : ℚ) : FloatValue :=
  if |roundNearestEven 53 (-1022) q| ≤ DBL_MAX then .finite (roundNearestEven 53 (-1022) q)
  else .infinity (decide (q < 0))

/-- Conversion of a `double` to `float`, as on the assignment of a `double` to a `float`
variable. The conversion of a `float` to `double` changes no value and is not written. -/
def FloatValue.narrow : FloatValue → FloatValue
  | .finite q => toFloat q
  | .infinity negative => .infinity negative
  | .nan => .nan

/-- Subtraction `a - b` in the format whose rounding is `round`. -/
def FloatValue.sub (round : ℚ → FloatValue) : FloatValue → FloatValue → FloatValue
  | .finite a, .finite b => round (a - b)
  | .finite _, .infinity negative => .infinity (!negative)
  | .infinity negative, .finite _ => .infinity negative
  | .infinity negative, .infinity negative2 =>
    if negative = negative2 then .nan else .infinity negative
  | .nan, _ => .nan
  | _, .nan => .nan

/-- Division `a / b` in the format whose rounding is `round`; a zero divisor counts as
`+0`, which the difference of two equal finite numbers is. -/
def FloatValue.div (round : ℚ → FloatValue) : FloatValue → FloatValue → FloatValue
  | .finite a, .finite b =>
    if b = 0 then (if a = 0 then .nan else .infinity (decide (a < 0))) else round (a / b)
  | .finite _, .infinity _ => .finite 0
  | .infinity negative, .finite b => .infinity (xor negative (decide (b < 0)))
  | .infinity _, .infinity _ => .nan
  | .nan, _ => .nan
  | _, .nan => .nan

/-- Multiplication `a * b` in the format whose rounding is `round`. -/
def FloatValue.mul (round : ℚ → FloatValue) : FloatValue → FloatValue → FloatValue
  | .finite a, .finite b => round (a * b)
  | .finite a, .infinity negative =>
    if a = 0 then .nan else .infinity (xor (decide (a < 0)) negative)
  | .infinity negative, .finite b =>
    if b = 0 then .nan else .infinity (xor negative (decide (b < 0)))
  | .infinity negative, .infinity negative2 => .infinity (xor negative negative2)
  | .nan, _ => .nan
  | _, .nan => .nan

/-- The call `log(x)` of the C library on the `double` `x`; for `x` above zero the library
is the parameter `log`, whose value becomes a `double`. -/
def logDouble (log : ℚ → ℚ) (x : ℚ) : FloatValue :=
  if 0 < x then toDouble (log x) else if x = 0 then .infinity true else .nan

/-! ## Trajectory conversion and export (Utils/NetCDFConverter.cpp) -/

/-- Three floats, `glm::vec3`. -/
structure Vec3 where
  x : FloatValue
  y : FloatValue
  z : FloatValue
deriving DecidableEq

/-- Type `Trajectory` as `NetCDFConverter.cpp` uses it (its declaration is in a header
that is not among the sources): the positions and the attribute series. -/
structure Trajectory where
  positions : List Vec3
  attributes : List (List ℚ)
deriving DecidableEq

/-- Type `Trajectories`, a `std::vector<Trajectory>`. -/
abbrev Trajectories := List Trajectory

/-- Body of the first loop of `convertLatLonToCartesian` (lines 224 to 229): the
accumulator is `(minPressure, maxPressure)`. -/
def pressureBoundsStep (pressure : Nat → ℚ) (acc : ℚ × ℚ) (idx : Nat) : ℚ × ℚ :=
  (if 0 < pressure idx then min acc.1 (pressure idx) else acc.1, max acc.2 (pressure idx))

/-- First loop of `convertLatLonToCartesian` (lines 219 to 229); the result is
`(minPressure, maxPressure)`. -/
def pressureBounds (pressure : Nat → ℚ) (trajectoryDim timeDim : Nat) : ℚ × ℚ :=
  (List.range (trajectoryDim * timeDim)).foldl (pressureBoundsStep pressure) (FLT_MAX, -FLT_MAX)

/-- Body of the loop over `i` of `convertLatLonToCartesian` (lines 240 to 256); the
accumulator is `(cartesianCoords, pressureAttr)`. On line 247 the logarithm is a `double`,
from which the `float` `logMaxPressure` is subtracted in `double`; the divisor is the
difference of the two `float`s, taken in `float`; the quotient is taken in `double` and
becomes a `float` on the assignment. -/
def convertSample (log : ℚ → ℚ) (lat lon pressure : Nat → ℚ)
    (logMinPressure logMaxPressure : FloatValue) (trajectoryIndex timeDim : Nat)
    (acc : List Vec3 × List ℚ) (i : Nat) : List Vec3 × List ℚ :=
  let index := i + trajectoryIndex * timeDim
  let pressureAtIdx := pressure index
  if pressureAtIdx ≤ 0 then acc
  else
    let normalizedLogPressure := FloatValue.narrow (FloatValue.div toDouble
      (FloatValue.sub toDouble (logDouble log pressureAtIdx) logMaxPressure)
      (FloatValue.sub toFloat logMinPressure logMaxPressure))
    let x := FloatValue.div toFloat (.finite (lat index)) (.finite 100)
    let y := normalizedLogPressure
    let z := FloatValue.div toFloat (.finite (lon index)) (.finite 100)
    (acc.1 ++ [{ x := x, y := y, z := z }], acc.2 ++ [pressureAtIdx])

/-- The `Trajectory` built by one iteration of the loop over `trajectoryIndex` of
`convertLatLonToCartesian` (lines 234 to 256). -/
def convertTrajectory (log : ℚ → ℚ) (lat lon pressure : Nat → ℚ)
    (logMinPressure logMaxPressure : FloatValue) (trajectoryIndex timeDim : Nat) : Trajectory :=
  let r := (List.range timeDim).foldl
    (convertSample log lat lon pressure logMinPressure logMaxPressure trajectoryIndex timeDim) ([], [])
  { positions := r.1, attributes := [r.2] }

/-- Function `convertLatLonToCartesian` of `NetCDFConverter.cpp`. The two logarithms of
lines 230 and 231 are `double`s that become `float`s on the assignment. -/
def convertLatLonToCartesian (log : ℚ → ℚ) (lat lon pressure : Nat → ℚ)
    (trajectoryDim timeDim : Nat) : Trajectories :=
  let minPressure := (pressureBounds pressure trajectoryDim timeDim).1
  let maxPressure := (pressureBounds pressure trajectoryDim timeDim).2
  let logMinPressure := FloatValue.narrow (logDouble log minPressure)
  let logMaxPressure := FloatValue.narrow (logDouble log maxPressure)
  (List.range trajectoryDim).foldl (fun trajectories trajectoryIndex =>
    let trajectory := convertTrajectory log lat lon pressure logMinPressure logMaxPressure
      trajectoryIndex timeDim
    if trajectory.positions.isEmpty then trajectories else trajectories ++ [trajectory]) []

/-- One line of the exported `.obj` file; floats are kept as values, not as digits.
`blank` is the empty line after a polyline. -/
inductive ObjLine where
  | v (x y z : FloatValue)
  | vt (a : ℚ)
  | g (trajectoryFileIndex : Nat)
  | l (indices : List Nat)
  | blank
deriving DecidableEq

/-- How a call of `exportObjFile` ends: `exit(1)` because the file could not be opened,
a `std::out_of_range` thrown by `.at` after the listed lines, or the file closed with
the listed lines. -/
inductive ExportOutcome where
  | exited
  | outOfRange (written : List ObjLine)
  | closed (written : List ObjLine)
deriving DecidableEq

/-- Local variables of `exportObjFile` across its outer loop, with the lines written. -/
structure ExportState where
  outfile : List ObjLine
  objPointIndex : Nat
  trajectoryFileIndex : Nat
deriving DecidableEq

/-- Body of the first inner loop of `exportObjFile` (lines 294 to 298); a failing `.at`
throws with the lines written so far. -/
def writeVertex (trajectory : Trajectory) (outfile : List ObjLine) (i : Nat) :
    Except (List ObjLine) (List ObjLine) :=
  match trajectory.positions[i]? with
  | none => .error outfile
  | some v =>
    let outfile := outfile ++ [ObjLine.v v.x v.y v.z]
    match trajectory.attributes[0]? with
    | none => .error outfile
    | some pressureAttr =>
      match pressureAttr[i]? with
      | none => .error outfile
      | some a => .ok (outfile ++ [ObjLine.vt a])

/-- Second inner loop of `exportObjFile` (lines 302 to 305): the indices written on the
polyline and the new `objPointIndex`. -/
def writePolyline (trajectorySize objPointIndex : Nat) : List Nat × Nat :=
  (List.range' 1 trajectorySize).foldl (fun acc _ => (acc.1 ++ [acc.2], acc.2 + 1)) ([], objPointIndex)

/-- Body of the outer loop of `exportObjFile` (lines 288 to 307). -/
def exportTrajectory (trajectories : Trajectories) (st : ExportState) (trajectoryIndex : Nat) :
    Except (List ObjLine) ExportState :=
  match trajectories[trajectoryIndex]? with
  | none => .error st.outfile
  | some trajectory =>
    let trajectorySize := trajectory.positions.length
    if trajectorySize < 2 then .ok st
    else
      match (List.range trajectorySize).foldlM (writeVertex trajectory) st.outfile with
      | .error written => .error written
      | .ok outfile =>
        let outfile := outfile ++ [ObjLine.g st.trajectoryFileIndex]
        let polyline := writePolyline trajectorySize st.objPointIndex
        .ok { outfile := outfile ++ [ObjLine.l polyline.1, ObjLine.blank]
              objPointIndex := polyline.2
              trajectoryFileIndex := st.trajectoryFileIndex + 1 }

/-- Function `exportObjFile` of `NetCDFConverter.cpp`; `isOpen` is the answer of
`outfile.is_open()` for the given file name. -/
def exportObjFile (isOpen : Bool) (trajectories : Trajectories) : ExportOutcome :=
  if !isOpen then .exited
  else
    match (List.range trajectories.length).foldlM (exportTrajectory trajectories)
        { outfile := [], objPointIndex := 1, trajectoryFileIndex := 0 } with
    | .error written => .outOfRange written
    | .ok st => .closed st.outfile

/-- The NetCDF library of `netcdf.h`, an external collaborator: each function gives its
status code and the value it stores through its output parameter. -/
structure NetCDF where
  nc_open : String → Int × Nat
  nc_inq_dimid : Nat → String → Int × Nat
  nc_inq_dimlen : Nat → Nat → Int × Nat
  nc_inq_varid : Nat → String → Int × Nat
  nc_get_vara_float : Nat → Nat → List Nat → List Nat → Int × (Nat → ℚ)
  nc_get_vara_double : Nat → Nat → List Nat → List Nat → Int × (Nat → ℚ)
  nc_close : Nat → Int

/-- A call made to the NetCDF library. -/
inductive NcCall where
  | nc_open (filename : String)
  | nc_inq_dimid (dimname : String)
  | nc_inq_dimlen (dimid : Nat)
  | nc_inq_varid (varname : String)
  | nc_get_vara (varid : Nat)
  | nc_close
deriving DecidableEq

/-- Computations of the loader: they append to the list of library calls made so far
and end without a value when `myassert` terminates the process. -/
abbrev NcM := OptionT (StateM (List NcCall))

/-- Notes one library call. -/
def recordCall (c : NcCall) : NcM Unit :=
  modify (fun calls => calls ++ [c])

/-- Macro `myassert` of `NetCDFConverter.cpp`: a false condition terminates the process. -/
def myassert (x : Bool) : NcM Unit :=
  if x then pure () else failure

/-- Function `getDim` of `NetCDFConverter.cpp`. -/
def getDim (nc : NetCDF) (ncid : Nat) (dimname : String) : NcM Nat := do
  recordCall (.nc_inq_dimid dimname)
  let r := nc.nc_inq_dimid ncid dimname
  myassert (r.1 == 0)
  recordCall (.nc_inq_dimlen r.2)
  let d := nc.nc_inq_dimlen ncid r.2
  myassert (d.1 == 0)
  pure d.2

/-- Function `loadFloatArray1D` of `NetCDFConverter.cpp` (the overload without `start`). -/
def loadFloatArray1D (nc : NetCDF) (ncid : Nat) (varname : String) (len : Nat) : NcM (Nat → ℚ) := do
  recordCall (.nc_inq_varid varname)
  let r := nc.nc_inq_varid ncid varname
  myassert (r.1 == 0)
  recordCall (.nc_get_vara r.2)
  let a := nc.nc_get_vara_float ncid r.2 [0] [len]
  myassert (a.1 == 0)
  pure a.2

/-- Function `loadDoubleArray1D` of `NetCDFConverter.cpp`. -/
def loadDoubleArray1D (nc : NetCDF) (ncid : Nat) (varname : String) (len : Nat) : NcM (Nat → ℚ) := do
  recordCall (.nc_inq_varid varname)
  let r := nc.nc_inq_varid ncid varname
  myassert (r.1 == 0)
  recordCall (.nc_get_vara r.2)
  let a := nc.nc_get_vara_double ncid r.2 [0] [len]
  myassert (a.1 == 0)
  pure a.2

/-- Function `loadFloatArray3D` of `NetCDFConverter.cpp` (the overload without starts). -/
def loadFloatArray3D (nc : NetCDF) (ncid : Nat) (varname : String) (zlen ylen xlen : Nat) :
    NcM (Nat → ℚ) := do
  recordCall (.nc_inq_varid varname)
  let r := nc.nc_inq_varid ncid varname
  myassert (r.1 == 0)
  recordCall (.nc_get_vara r.2)
  let a := nc.nc_get_vara_float ncid r.2 [0, 0, 0] [zlen, ylen, xlen]
  myassert (a.1 == 0)
  pure a.2

/-- Lines 326 to 362 of `loadNetCdfFile`: what it does once the file is open. -/
def loadOpenedFile (nc : NetCDF) (log : ℚ → ℚ) (ncid : Nat) : NcM Trajectories := do
  let timeDim ← getDim nc ncid "time"
  let trajectoryDim ← getDim nc ncid "trajectory"
  let _ensembleDim ← getDim nc ncid "ensemble"
  let startLonDim ← getDim nc ncid "start_lon"
  let startLatDim ← getDim nc ncid "start_lat"
  let timeIntervalDim ← getDim nc ncid "time_interval"
  let _time ← loadDoubleArray1D nc ncid "time" timeDim
  let lon ← loadFloatArray3D nc ncid "lon" 1 trajectoryDim timeDim
  let lat ← loadFloatArray3D nc ncid "lat" 1 trajectoryDim timeDim
  let pressure ← loadFloatArray3D nc ncid "pressure" 1 trajectoryDim timeDim
  let _startLon ← loadFloatArray1D nc ncid "start_lon" startLonDim
  let _startLat ← loadFloatArray1D nc ncid "start_lat" startLatDim
  let _timeInterval ← loadFloatArray1D nc ncid "time_interval" timeIntervalDim
  let trajectories := convertLatLonToCartesian log lat lon pressure trajectoryDim timeDim
  recordCall .nc_close
  myassert (nc.nc_close ncid == 0)
  pure trajectories

/-- What a call of `loadNetCdfFile` leaves: the library calls it made, in order, and
the collection it returned (`none` when `myassert` terminated the process). -/
structure LoadOutcome where
  calls : List NcCall
  returned : Option Trajectories
deriving DecidableEq

/-- Function `loadNetCdfFile` of `NetCDFConverter.cpp`. -/
def loadNetCdfFile (nc : NetCDF) (log : ℚ → ℚ) (filename : String) : LoadOutcome :=
  let trajectories : Trajectories := []
  let r := nc.nc_open filename
  if r.1 ≠ 0 then
    { calls := [.nc_open filename], returned := some trajectories }
  else
    let done := (loadOpenedFile nc log r.2).run [.nc_open filename]
    { calls := done.2, returned := done.1 }

/-! ## Histograms of the variable window (MultiVarWindow.cpp) -/

/-- Type `ImportanceCriterionAttribute` as `MultiVarWindow.cpp` uses it (its declaration
is in a header that is not among the sources). -/
structure ImportanceCriterionAttribute where
  attributes : List ℚ
  minAttribute : ℚ
  maxAttribute : ℚ
deriving DecidableEq

/-- Members of `MultiVarWindow` that `setVariables`, `computeHistograms` and the slider
of `renderSettings` read or write; `variables_` is the member `variables`. -/
structure MultiVarWindow where
  variables_ : List ImportanceCriterionAttribute
  names : List String
  variablesMinMax : List (ℚ × ℚ)
  histograms : List (List ℚ)
  histogramRes : Int
deriving DecidableEq

/-- Conversion `static_cast<int32_t>` of a float: truncation toward zero, undefined for
an infinity, for a NaN and outside the range of `int32_t`. -/
def static_cast_int32 : FloatValue → Option Int
  | .finite q =>
    let t := q.num.tdiv q.den
    if -2147483648 ≤ t ∧ t ≤ 2147483647 then some t else none
  | _ => none

/-- Function `glm::clamp`, `min(max(x, minVal), maxVal)`. -/
def clamp (x minVal maxVal : Int) : Int :=
  min (max x minVal) maxVal

/-- Bucket index of `computeHistograms` (lines 75 to 77): the two differences, the
quotient and the product are `float` operations, each rounded, and `histogramRes - 1`
becomes a `float`. With `minMax.y = minMax.x` the quotient is a NaN or an infinity, as it
is when a difference overflows, and the cast is undefined. -/
def bucketIndex (value : ℚ) (minMax : ℚ × ℚ) (histogramRes : Int) : Option Int :=
  match static_cast_int32 (FloatValue.mul toFloat
      (FloatValue.div toFloat (FloatValue.sub toFloat (.finite value) (.finite minMax.1))
        (FloatValue.sub toFloat (.finite minMax.2) (.finite minMax.1)))
      (toFloat ((histogramRes - 1 : Int) : ℚ))) with
  | none => none
  | some index => some (clamp index 0 255)

/-- Statement `histogram[index]++` (line 78); an index outside the vector is undefined. -/
def incrementBucket (histogram : List ℚ) (index : Int) : Option (List ℚ) :=
  if index < 0 then none
  else
    match histogram[index.toNat]? with
    | none => none
    | some numBin => some (histogram.set index.toNat (numBin + 1))

/-- Body of the loop over the values of a variable (lines 73 to 79). -/
def countValue (minMax : ℚ × ℚ) (histogramRes : Int) (histogram : List ℚ) (value : ℚ) :
    Option (List ℚ) :=
  match bucketIndex value minMax histogramRes with
  | none => none
  | some index => incrementBucket histogram index

/-- Body of the loop over the variables of `computeHistograms` (lines 65 to 90): the
histogram of one variable. A negative `histogramRes` makes the vector constructor throw. -/
def computeHistogram (var : List ℚ) (minMax : ℚ × ℚ) (histogramRes : Int) : Option (List ℚ) :=
  if histogramRes < 0 then none
  else
    match var.foldlM (countValue minMax histogramRes) (List.replicate histogramRes.toNat 0) with
    | none => none
    | some histogram =>
      let histogramsMax := histogram.foldl max 0
      some (histogram.map (fun numBin => numBin / histogramsMax))

/-- One iteration of the loop over `v` of `computeHistograms` (lines 63 to 91): the
histogram stored in `histograms[v]`, from `variables[v]` and `variablesMinMax[v]`. -/
def MultiVarWindow.histogramOf (w : MultiVarWindow) (v : Nat) : Option (List ℚ) :=
  match w.variables_[v]?, w.variablesMinMax[v]? with
  | some var, some minMax => computeHistogram var.attributes minMax w.histogramRes
  | _, _ => none

/-- Method `MultiVarWindow::computeHistograms`. -/
def MultiVarWindow.computeHistograms (w : MultiVarWindow) : Option MultiVarWindow :=
  match (List.range w.variables_.length).mapM w.histogramOf with
  | none => none
  | some histograms => some { w with histograms := histograms }

/-- Method `MultiVarWindow::setVariables`. -/
def MultiVarWindow.setVariables (w : MultiVarWindow) (_variables : List ImportanceCriterionAttribute)
    (_names : List String) : Option MultiVarWindow :=
  MultiVarWindow.computeHistograms
    { w with
      variables_ := _variables
      names := _names
      variablesMinMax := _variables.map (fun var => (var.minAttribute, var.maxAttribute)) }

/-- The slider of `MultiVarWindow::renderSettings` (lines 146 to 149): `slider` is the
value the user moved it to, between 1 and 255, or `none` when it was not moved. -/
def MultiVarWindow.renderSettings (w : MultiVarWindow) (slider : Option Int) : Option MultiVarWindow :=
  match slider with
  | none => some w
  | some histogramRes => MultiVarWindow.computeHistograms { w with histogramRes := histogramRes }

/-! ## Definitions used by the statements and proofs -/

/-- Number of slots written since the last clear. -/
def OIT_LinkedList.stored (s : OIT_LinkedList) : Nat :=
  min s.atomicCounterBuffer s.capacity

/-- Well-formedness of the lists: every head and every `next` of a written slot is the
sentinel or an earlier written slot. -/
def OIT_LinkedList.Linked (s : OIT_LinkedList) : Prop :=
  (∀ p i, s.startOffsetBuffer p = some i → i < s.stored) ∧
  (∀ i, i < s.stored → ∀ j, (s.fragmentBuffer i).next = some j → j < i)

/-- Color and depth of a stored node: what sorting and compositing read. -/
def LinkedListFragmentNode.key (n : LinkedListFragmentNode) : Color × ℚ :=
  (n.color, n.depth)

/-- Color and depth of a submitted fragment. -/
def Fragment.key (f : Fragment) : Color × ℚ :=
  (f.color, f.depth)

/-- Colors and depths met on the walk of `fuel` steps from the head of `pixel`. -/
def OIT_LinkedList.chain (s : OIT_LinkedList) (fuel pixel : Nat) : List (Color × ℚ) :=
  (walk s.fragmentBuffer fuel (s.startOffsetBuffer pixel)).map (fun x => x.2.key)

/-- Times of trajectory `trajectoryIndex` whose sample has a pressure above zero, in
time order. -/
def keptTimes (pressure : Nat → ℚ) (timeDim trajectoryIndex : Nat) : List Nat :=
  (List.range timeDim).filter (fun i => 0 < pressure (i + trajectoryIndex * timeDim))

/-- The point that `convertLatLonToCartesian` stores for the sample at `index` when the
bounds of the pressure are `minPressure` and `maxPressure`: the operations of lines 230,
231 and 247 to 252, each with its rounding. -/
def mappedPoint (log : ℚ → ℚ) (lat lon pressure : Nat → ℚ) (minPressure maxPressure : ℚ)
    (index : Nat) : Vec3 :=
  { x := toFloat (lat index / 100)
    y := FloatValue.narrow (FloatValue.div toDouble
      (FloatValue.sub toDouble (logDouble log (pressure index))
        (FloatValue.narrow (logDouble log maxPressure)))
      (FloatValue.sub toFloat (FloatValue.narrow (logDouble log minPressure))
        (FloatValue.narrow (logDouble log maxPressure))))
    z := toFloat (lon index / 100) }

/-- The number is a finite `float`: the conversion to `float` leaves it unchanged. -/
def IsFloat (q : ℚ) : Prop :=
  toFloat q = .finite q

/-- Whether a number is a finite `float` can be computed. -/
instance (q : ℚ) : Decidable (IsFloat q) :=
  inferInstanceAs (Decidable (toFloat q = .finite q))

/-- Whether a line of the file is a vertex line. -/
def ObjLine.isVertex : ObjLine → Bool
  | .v _ _ _ => true
  | _ => false

/-- Whether a line of the file is a polyline record. -/
def ObjLine.isPolyline : ObjLine → Bool
  | .l _ => true
  | _ => false

/-- One vertex line and one texture-coordinate line per point of a trajectory, the
texture coordinate being the entry of the first attribute series at that point. -/
def vertexLines (trajectory : Trajectory) : List ObjLine :=
  (trajectory.positions.zip (trajectory.attributes.headD [])).flatMap
    (fun pa => [ObjLine.v pa.1.x pa.1.y pa.1.z, ObjLine.vt pa.2])

/-- What a trajectory adds to a file that already holds the lines `written`, in the
words of the specification: nothing when it has fewer than two points; otherwise its
vertex and texture-coordinate lines, its group line, and one polyline that lists the
1-based positions of its vertices among all vertex lines of the file. -/
def contribution (written : List ObjLine) (trajectory : Trajectory) : List ObjLine :=
  if trajectory.positions.length < 2 then []
  else
    vertexLines trajectory ++
      [ObjLine.g (written.countP ObjLine.isPolyline),
       ObjLine.l (List.range' (written.countP ObjLine.isVertex + 1) trajectory.positions.length),
       ObjLine.blank]

/-- Every trajectory of two or more points has a first attribute series with an entry
for each point. -/
def AttributePerPoint (trajectories : Trajectories) : Prop :=
  ∀ u ∈ trajectories, 2 ≤ u.positions.length →
    ∃ pressureAttr, u.attributes[0]? = some pressureAttr ∧ u.positions.length ≤ pressureAttr.length

/-- The point index and the file index of `exportObjFile` count the vertex lines and the
polylines written so far. -/
def ExportState.Counted (st : ExportState) : Prop :=
  st.objPointIndex = st.outfile.countP ObjLine.isVertex + 1 ∧
  st.trajectoryFileIndex = st.outfile.countP ObjLine.isPolyline

/-! ## Concrete inputs -/

/-- Opaque black, the scene color behind the transparent fragments. -/
def black : Color := { r := 0, g := 0, b := 0, a := 1 }

/-- Half-transparent red. -/
def red : Color := { r := 1, g := 0, b := 0, a := 1 / 2 }

/-- Half-transparent green. -/
def green : Color := { r := 0, g := 1, b := 0, a := 1 / 2 }

/-- Opaque red. -/
def solidRed : Color := { r := 1, g := 0, b := 0, a := 1 }

/-- Opaque green. -/
def solidGreen : Color := { r := 0, g := 1, b := 0, a := 1 }

/-- A renderer for a screen of one pixel, before its first frame. -/
def onePixel : OIT_LinkedList :=
  { width := 1, height := 1
    fragmentBuffer := fun _ => { color := black, depth := 0, used := 0, next := none }
    startOffsetBuffer := fun _ => none
    atomicCounterBuffer := 0 }

/-- A renderer for a screen of two pixels in one row, before its first frame. -/
def twoPixels : OIT_LinkedList :=
  { width := 2, height := 1
    fragmentBuffer := fun _ => { color := black, depth := 0, used := 0, next := none }
    startOffsetBuffer := fun _ => none
    atomicCounterBuffer := 0 }

/-- A frame of `n` fragments of pixel 0 followed by nine fragments of pixel 1. -/
def nineAfter (n : Nat) : List Fragment :=
  List.replicate n ⟨0, solidGreen, 1⟩ ++ List.replicate 9 ⟨1, solidRed, 2⟩

/-- Eight opaque green fragments of pixel 0 at the depths 2 to 9. -/
def eightGreen : List Fragment :=
  [⟨0, solidGreen, 2⟩, ⟨0, solidGreen, 3⟩, ⟨0, solidGreen, 4⟩, ⟨0, solidGreen, 5⟩,
   ⟨0, solidGreen, 6⟩, ⟨0, solidGreen, 7⟩, ⟨0, solidGreen, 8⟩, ⟨0, solidGreen, 9⟩]

/-- Latitudes of the worked example of the specification: 2500 at every sample. -/
def sampleLat : Nat → ℚ := fun _ => 2500

/-- Longitudes of the worked example of the specification: -1500 at every sample. -/
def sampleLon : Nat → ℚ := fun _ => -1500

/-- Pressures of one trajectory of three samples, 100, 500 and 1000. -/
def samplePressure : Nat → ℚ
  | 0 => 100
  | 1 => 500
  | _ => 1000

/-- The `double` nearest to the natural logarithm, for the arguments 5, 7, 100, 500 and
1000 (0 for any other argument). -/
def nearestLog (x : ℚ) : ℚ :=
  if x = 5 then 7248263982714163 / 4503599627370496
  else if x = 7 then 8763600222181975 / 4503599627370496
  else if x = 100 then 2592480341699211 / 562949953421312
  else if x = 500 then 3498513339538481 / 562949953421312
  else if x = 1000 then 243045032034301 / 35184372088832
  else 0

/-- Pressures of one trajectory of two samples, 5 and 7. -/
def fiveSeven : Nat → ℚ
  | 0 => 5
  | _ => 7

/-- Pressures of two trajectories of two samples each, one sample missing. -/
def gappyPressure : Nat → ℚ
  | 0 => 100
  | 1 => -999
  | 2 => 1000
  | _ => 500

/-- A trajectory of two points with one attribute entry per point. -/
def twoPoints : Trajectory :=
  { positions := [⟨1, 2, 3⟩, ⟨4, 5, 6⟩], attributes := [[7, 8]] }

/-- A trajectory of a single point. -/
def onePoint : Trajectory :=
  { positions := [⟨0, 0, 0⟩], attributes := [[9]] }

/-- A trajectory of two points without any attribute series. -/
def noAttributes : Trajectory :=
  { positions := [⟨1, 2, 3⟩, ⟨4, 5, 6⟩], attributes := [] }

/-- A NetCDF library for which no file can be opened (status 2) and every other call
succeeds with empty data. -/
def noSuchFile : NetCDF :=
  { nc_open := fun _ => (2, 0)
    nc_inq_dimid := fun _ _ => (0, 0)
    nc_inq_dimlen := fun _ _ => (0, 0)
    nc_inq_varid := fun _ _ => (0, 0)
    nc_get_vara_float := fun _ _ _ _ => (0, fun _ => 0)
    nc_get_vara_double := fun _ _ _ _ => (0, fun _ => 0)
    nc_close := fun _ => 0 }

/-- A NetCDF library whose files open and hold no trajectory (every dimension is 0). -/
def emptyFile : NetCDF :=
  { noSuchFile with nc_open := fun _ => (0, 1) }

/-- A window with the slider at two buckets, before any variable is set. -/
def twoBuckets : MultiVarWindow :=
  { variables_ := [], names := [], variablesMinMax := [], histograms := [], histogramRes := 2 }

/-- A variable whose only value, 2, lies above its `maxAttribute` 1. -/
def aboveMax : ImportanceCriterionAttribute :=
  { attributes := [2], minAttribute := 0, maxAttribute := 1 }

/-- A variable with the constant value 5, so that `minAttribute = maxAttribute`. -/
def constantFive : ImportanceCriterionAttribute :=
  { attributes := [5, 5], minAttribute := 5, maxAttribute := 5 }

/-- A variable with five values between its bounds 0 and 3. -/
def fiveValues : ImportanceCriterionAttribute :=
  { attributes := [0, 1, 2, 3, 3], minAttribute := 0, maxAttribute := 3 }

/-! # Theorems -/

/-! ## Per-pixel linked list -/

theorem capacity_clear (s : OIT_LinkedList) : s.clear.capacity = s.capacity := rfl

theorem capacity_gather (s : OIT_LinkedList) (f : Fragment) : (s.gather f).capacity = s.capacity := by
  simp only [OIT_LinkedList.gather]
  split <;> rfl

theorem counter_gather (s : OIT_LinkedList) (f : Fragment) :
    (s.gather f).atomicCounterBuffer = s.atomicCounterBuffer + 1 := by
  simp only [OIT_LinkedList.gather]
  split <;> rfl

theorem capacity_gatherAll (fs : List Fragment) (s : OIT_LinkedList) :
    (s.gatherAll fs).capacity = s.capacity := by
  induction fs generalizing s with
  | nil => rfl
  | cons f fs ih =>
    show ((s.gather f).gatherAll fs).capacity = _
    rw [ih, capacity_gather]

theorem counter_gatherAll (fs : List Fragment) (s : OIT_LinkedList) :
    (s.gatherAll fs).atomicCounterBuffer = s.atomicCounterBuffer + fs.length := by
  induction fs generalizing s with
  | nil => rfl
  | cons f fs ih =>
    show ((s.gather f).gatherAll fs).atomicCounterBuffer = _
    rw [ih, counter_gather, List.length_cons]
    omega

theorem gatherAll_append (s : OIT_LinkedList) (l : List Fragment) (f : Fragment) :
    s.gatherAll (l ++ [f]) = (s.gatherAll l).gather f := by
  simp [OIT_LinkedList.gatherAll, List.foldl_append]

theorem linked_clear (s : OIT_LinkedList) : s.clear.Linked := by
  constructor
  · intro p i h
    simp [OIT_LinkedList.clear] at h
  · intro i h
    simp [OIT_LinkedList.stored, OIT_LinkedList.clear] at h

theorem linked_gather (s : OIT_LinkedList) (f : Fragment) (h : s.Linked) : (s.gather f).Linked := by
  obtain ⟨hh, hn⟩ := h
  by_cases hc : s.capacity ≤ s.atomicCounterBuffer
  · have e : s.gather f = { s with atomicCounterBuffer := s.atomicCounterBuffer + 1 } := by
      simp [OIT_LinkedList.gather, hc]
    have es : (s.gather f).stored = s.stored := by
      rw [e]
      simp only [OIT_LinkedList.stored, OIT_LinkedList.capacity] at hc ⊢
      omega
    constructor
    · intro p i hp
      rw [es]
      rw [e] at hp
      exact hh p i hp
    · intro i hi j hj
      rw [es] at hi
      rw [e] at hj
      exact hn i hi j hj
  · have hs : s.stored = s.atomicCounterBuffer := by
      simp only [OIT_LinkedList.stored]
      omega
    have es : (s.gather f).stored = s.atomicCounterBuffer + 1 := by
      simp only [OIT_LinkedList.stored, capacity_gather, counter_gather]
      omega
    constructor
    · intro p i hp
      rw [es]
      simp only [OIT_LinkedList.gather, hc, if_false] at hp
      by_cases hpf : p = f.pixel
      · simp only [hpf, if_true, Option.some.injEq] at hp
        omega
      · simp only [hpf, if_false] at hp
        have := hh p i hp
        omega
    · intro i hi j hj
      rw [es] at hi
      simp only [OIT_LinkedList.gather, hc, if_false] at hj
      by_cases hic : i = s.atomicCounterBuffer
      · simp only [hic, if_true] at hj
        have := hh _ _ hj
        omega
      · simp only [hic, if_false] at hj
        exact hn i (by omega) j hj

theorem linked_gatherAll (fs : List Fragment) (s : OIT_LinkedList) (h : s.Linked) :
    (s.gatherAll fs).Linked := by
  induction fs generalizing s with
  | nil => exact h
  | cons f fs ih => exact ih (s.gather f) (linked_gather s f h)

/-- Along a walk every index read is below the bound on its start. -/
theorem walk_lt (s : OIT_LinkedList) (h : s.Linked) :
    ∀ (fuel : Nat) (o : Option Nat) (b : Nat), b ≤ s.stored → (∀ i, o = some i → i < b) →
      ∀ x ∈ walk s.fragmentBuffer fuel o, x.1 < b := by
  intro fuel
  induction fuel with
  | zero => intro o b _ _ x hx; simp [walk] at hx
  | succ n ih =>
    intro o b hb ho x hx
    cases o with
    | none => simp [walk] at hx
    | some i =>
      have hi : i < b := ho i rfl
      simp only [walk, List.mem_cons] at hx
      rcases hx with hx | hx
      · rw [hx]; exact hi
      · have := ih (s.fragmentBuffer i).next i (by omega) (fun j hj => h.2 i (by omega) j hj) x hx
        omega

/-- Along a walk the indices read strictly decrease. -/
theorem walk_pairwise (s : OIT_LinkedList) (h : s.Linked) :
    ∀ (fuel : Nat) (o : Option Nat), (∀ i, o = some i → i < s.stored) →
      (walk s.fragmentBuffer fuel o).Pairwise (fun x y => y.1 < x.1) := by
  intro fuel
  induction fuel with
  | zero => intro o _; simp [walk]
  | succ n ih =>
    intro o ho
    cases o with
    | none => simp [walk]
    | some i =>
      have hi : i < s.stored := ho i rfl
      simp only [walk, List.pairwise_cons]
      refine ⟨?_, ih _ (fun j hj => ?_)⟩
      · intro x hx
        exact walk_lt s h n _ i (by omega) (fun j hj => h.2 i hi j hj) x hx
      · have := h.2 i hi j hj
        omega

/-- A walk that stays below `b` reads the same nodes in two buffers that agree below `b`. -/
theorem walk_congr (buf buf2 : Nat → LinkedListFragmentNode) (b : Nat)
    (hn : ∀ i, i < b → ∀ j, (buf i).next = some j → j < b)
    (he : ∀ i, i < b → buf2 i = buf i) :
    ∀ (fuel : Nat) (o : Option Nat), (∀ i, o = some i → i < b) → walk buf2 fuel o = walk buf fuel o := by
  intro fuel
  induction fuel with
  | zero => intro o _; simp [walk]
  | succ n ih =>
    intro o ho
    cases o with
    | none => simp [walk]
    | some i =>
      have hi : i < b := ho i rfl
      simp only [walk, he i hi]
      rw [ih _ (fun j hj => hn i hi j hj)]

theorem walk_length_le (buf : Nat → LinkedListFragmentNode) :
    ∀ (fuel : Nat) (o : Option Nat), (walk buf fuel o).length ≤ fuel := by
  intro fuel
  induction fuel with
  | zero => intro o; simp [walk]
  | succ n ih =>
    intro o
    cases o with
    | none => simp [walk]
    | some i =>
      simp only [walk, List.length_cons]
      exact Nat.succ_le_succ (ih _)

theorem chain_gather_full (s : OIT_LinkedList) (f : Fragment) (hc : s.capacity ≤ s.atomicCounterBuffer)
    (fuel p : Nat) : (s.gather f).chain fuel p = s.chain fuel p := by
  simp [OIT_LinkedList.chain, OIT_LinkedList.gather, hc]

theorem chain_gather (s : OIT_LinkedList) (f : Fragment) (h : s.Linked)
    (hc : s.atomicCounterBuffer < s.capacity) (fuel p : Nat) :
    (s.gather f).chain fuel p =
      if p = f.pixel then (f.key :: s.chain (fuel - 1) p).take fuel else s.chain fuel p := by
  have hs : s.stored = s.atomicCounterBuffer := by
    simp only [OIT_LinkedList.stored]
    omega
  have hnc : ¬ s.capacity ≤ s.atomicCounterBuffer := by omega
  have hcongr : ∀ (k : Nat) (o : Option Nat), (∀ i, o = some i → i < s.stored) →
      walk (s.gather f).fragmentBuffer k o = walk s.fragmentBuffer k o := by
    intro k o ho
    apply walk_congr s.fragmentBuffer _ s.stored (fun i hi j hj => lt_trans (h.2 i hi j hj) hi) _ k o ho
    intro i hi
    have : i ≠ s.atomicCounterBuffer := by omega
    simp [OIT_LinkedList.gather, hnc, this]
  by_cases hp : p = f.pixel
  · simp only [hp, if_true]
    cases fuel with
    | zero => simp [OIT_LinkedList.chain, walk]
    | succ k =>
      have hhead : (s.gather f).startOffsetBuffer f.pixel = some s.atomicCounterBuffer := by
        simp [OIT_LinkedList.gather, hnc]
      have hnode : (s.gather f).fragmentBuffer s.atomicCounterBuffer =
          { color := f.color, depth := f.depth, used := 1, next := s.startOffsetBuffer f.pixel } := by
        simp [OIT_LinkedList.gather, hnc]
      have hlen : (s.chain k f.pixel).length ≤ k := by
        simp only [OIT_LinkedList.chain, List.length_map]
        exact walk_length_le _ _ _
      simp only [OIT_LinkedList.chain, hhead, walk, hnode, List.map_cons, Nat.add_sub_cancel,
        List.take_succ_cons]
      rw [hcongr k _ (fun i hi => h.1 _ i hi)]
      rw [List.take_of_length_le (by simpa [OIT_LinkedList.chain] using hlen)]
      rfl
  · simp only [hp, if_false]
    have hhead : (s.gather f).startOffsetBuffer p = s.startOffsetBuffer p := by
      simp [OIT_LinkedList.gather, hnc, hp]
    simp only [OIT_LinkedList.chain, hhead]
    rw [hcongr fuel _ (fun i hi => h.1 _ i hi)]

/-- After a frame's gather pass the list of a pixel holds, newest first, the fragments of
that pixel among the first `capacity` submitted. -/
theorem chain_gatherAll (s : OIT_LinkedList) (fs : List Fragment) (fuel p : Nat) :
    (s.clear.gatherAll fs).chain fuel p =
      ((((fs.take s.capacity).filter (fun f => f.pixel = p)).reverse).map Fragment.key).take fuel := by
  induction fs using List.reverseRecOn generalizing fuel with
  | nil => cases fuel <;> simp [OIT_LinkedList.gatherAll, OIT_LinkedList.chain, OIT_LinkedList.clear, walk]
  | append_singleton l a ih =>
    rw [gatherAll_append]
    have hcnt : (s.clear.gatherAll l).atomicCounterBuffer = l.length := by
      rw [counter_gatherAll]
      simp [OIT_LinkedList.clear]
    have hcap : (s.clear.gatherAll l).capacity = s.capacity := by
      rw [capacity_gatherAll, capacity_clear]
    by_cases hc : s.capacity ≤ l.length
    · rw [chain_gather_full _ _ (by rw [hcnt, hcap]; exact hc), ih, List.take_append_of_le_length hc]
    · have hl : l.take s.capacity = l := List.take_of_length_le (by omega)
      have hla : (l ++ [a]).take s.capacity = l ++ [a] :=
        List.take_of_length_le (by simp; omega)
      rw [chain_gather _ _ (linked_gatherAll l _ (linked_clear s)) (by rw [hcnt, hcap]; omega)]
      rw [hla, List.filter_append, List.reverse_append, List.map_append]
      by_cases hp : p = a.pixel
      · subst hp
        cases fuel with
        | zero => simp
        | succ k => simp [ih, hl]
      · have : ¬ a.pixel = p := fun e => hp e.symm
        simp [hp, this, ih, hl]

theorem insertByDepth_perm (n : LinkedListFragmentNode) (l : List LinkedListFragmentNode) :
    (insertByDepth n l).Perm (n :: l) := by
  induction l with
  | nil => simp [insertByDepth]
  | cons m l ih =>
    simp only [insertByDepth]
    split
    · exact List.Perm.refl _
    · exact (List.Perm.cons m ih).trans (List.Perm.swap n m l)

theorem sortByDepth_perm (l : List LinkedListFragmentNode) : (sortByDepth l).Perm l := by
  induction l with
  | nil => simp [sortByDepth]
  | cons n l ih =>
    simp only [sortByDepth]
    exact (insertByDepth_perm n _).trans (List.Perm.cons n ih)

theorem insertByDepth_sorted (n : LinkedListFragmentNode) (l : List LinkedListFragmentNode)
    (h : l.Pairwise (fun a b => a.depth ≤ b.depth)) :
    (insertByDepth n l).Pairwise (fun a b => a.depth ≤ b.depth) := by
  induction l with
  | nil => simp [insertByDepth]
  | cons m l ih =>
    rw [List.pairwise_cons] at h
    simp only [insertByDepth]
    split
    · rename_i hle
      refine List.pairwise_cons.2 ⟨?_, List.pairwise_cons.2 h⟩
      intro x hx
      rcases List.mem_cons.1 hx with hx | hx
      · rw [hx]; exact hle
      · exact le_trans hle (h.1 x hx)
    · rename_i hle
      refine List.pairwise_cons.2 ⟨?_, ih h.2⟩
      intro x hx
      rcases List.mem_cons.1 ((insertByDepth_perm n l).subset hx) with hx | hx
      · rw [hx]; exact le_of_lt (not_le.1 hle)
      · exact h.1 x hx

theorem sortByDepth_sorted (l : List LinkedListFragmentNode) :
    (sortByDepth l).Pairwise (fun a b => a.depth ≤ b.depth) := by
  induction l with
  | nil => simp [sortByDepth]
  | cons n l ih => exact insertByDepth_sorted n _ ih

theorem composite_eq_foldr_key (background : Color) (l : List LinkedListFragmentNode) :
    composite background l =
      (l.map LinkedListFragmentNode.key).foldr (fun k dst => blendOver k.1 dst) background := by
  simp [composite, List.foldr_map, LinkedListFragmentNode.key]

/-- Two lists of colors with depths that are sorted by depth, hold the same entries and
have no depth twice are the same list. -/
theorem key_sorted_unique (a b : List (Color × ℚ)) (hperm : a.Perm b)
    (ha : a.Pairwise (fun x y => x.2 ≤ y.2)) (hb : b.Pairwise (fun x y => x.2 ≤ y.2))
    (hd : (a.map Prod.snd).Nodup) : a = b := by
  have hdb : (b.map Prod.snd).Nodup := (hperm.map Prod.snd).nodup_iff.1 hd
  have strict : ∀ c : List (Color × ℚ), c.Pairwise (fun x y => x.2 ≤ y.2) → (c.map Prod.snd).Nodup →
      c.Pairwise (fun x y => x.2 < y.2) := by
    intro c hc hn
    have hn2 : c.Pairwise (fun x y => x.2 ≠ y.2) := by
      unfold List.Nodup at hn
      rwa [List.pairwise_map] at hn
    exact (hc.and hn2).imp (fun h => lt_of_le_of_ne h.1 h.2)
  haveI : IsAntisymm (Color × ℚ) (fun x y => x.2 < y.2) :=
    ⟨fun _ _ h1 h2 => absurd h1 (not_lt_of_lt h2)⟩
  exact List.eq_of_perm_of_sorted hperm (strict a ha hd) (strict b hb hdb)

/-- The walk of the resolve pass written with `chain`. -/
theorem collected_key (s : OIT_LinkedList) (p : Nat) :
    (s.collected p).map LinkedListFragmentNode.key = s.chain linkedListEntriesPerPixel p := by
  simp [OIT_LinkedList.collected, OIT_LinkedList.chain, List.map_map, Function.comp_def]

/-- The color of a frame at a pixel is a function of the sorted colors and depths. -/
theorem frame_eq (s : OIT_LinkedList) (fs : List Fragment) (background : Color) (p : Nat) :
    s.frame fs background p =
      ((sortByDepth ((s.clear.gatherAll fs).collected p)).map LinkedListFragmentNode.key).foldr
        (fun k dst => blendOver k.1 dst) background := by
  rw [← composite_eq_foldr_key]
  rfl

theorem insertByDepth_key_congr (n n2 : LinkedListFragmentNode) (hn : n.key = n2.key) :
    ∀ l l2 : List LinkedListFragmentNode, l.map LinkedListFragmentNode.key = l2.map LinkedListFragmentNode.key →
      (insertByDepth n l).map LinkedListFragmentNode.key =
        (insertByDepth n2 l2).map LinkedListFragmentNode.key := by
  have hd : n.depth = n2.depth := congrArg Prod.snd hn
  intro l
  induction l with
  | nil =>
    intro l2 h
    cases l2 with
    | nil => simp [insertByDepth, hn]
    | cons m2 l2 => simp at h
  | cons m l ih =>
    intro l2 h
    cases l2 with
    | nil => simp at h
    | cons m2 l2 =>
      simp only [List.map_cons, List.cons.injEq] at h
      have hm : m.depth = m2.depth := congrArg Prod.snd h.1
      simp only [insertByDepth, hd, hm]
      split
      · simp [hn, h.1, h.2]
      · simp [h.1, ih l2 h.2]

theorem sortByDepth_key_congr :
    ∀ l l2 : List LinkedListFragmentNode, l.map LinkedListFragmentNode.key = l2.map LinkedListFragmentNode.key →
      (sortByDepth l).map LinkedListFragmentNode.key =
        (sortByDepth l2).map LinkedListFragmentNode.key := by
  intro l
  induction l with
  | nil =>
    intro l2 h
    cases l2 with
    | nil => rfl
    | cons m2 l2 => simp at h
  | cons m l ih =>
    intro l2 h
    cases l2 with
    | nil => simp at h
    | cons m2 l2 =>
      simp only [List.map_cons, List.cons.injEq] at h
      exact insertByDepth_key_congr m m2 h.1 _ _ (ih l2 h.2)

/-- The color of a frame at a pixel, computed from the submitted fragments: the newest
`linkedListEntriesPerPixel` fragments of the pixel among the first `capacity` of the
frame are sorted and composited. -/
theorem frame_eq_of_fragments (s : OIT_LinkedList) (fs : List Fragment) (background : Color) (p : Nat) :
    s.frame fs background p =
      composite background (sortByDepth
        (((((fs.take s.capacity).filter (fun f => f.pixel = p)).reverse).take linkedListEntriesPerPixel).map
          (fun f => { color := f.color, depth := f.depth, used := 1, next := none }))) := by
  rw [frame_eq, composite_eq_foldr_key]
  congr 1
  apply sortByDepth_key_congr
  rw [collected_key, chain_gatherAll, List.map_map, List.map_take]
  rfl

/-- C1 (as amended): the color `renderToScreen` produces for a pixel is the same for every
permutation of the submission order of a frame, provided the frame has no more fragments
than the fragment buffer has slots and the fragments of that pixel are at most
`linkedListEntriesPerPixel` and have pairwise distinct depths. -/
theorem frame_order_independent (s : OIT_LinkedList) (background : Color) (p : Nat)
    (fs fs2 : List Fragment) (hperm : fs.Perm fs2) (hcap : fs.length ≤ s.capacity)
    (hcount : (fs.filter (fun f => f.pixel = p)).length ≤ linkedListEntriesPerPixel)
    (hdepth : ((fs.filter (fun f => f.pixel = p)).map (fun f => f.depth)).Nodup) :
    s.frame fs background p = s.frame fs2 background p := by
  have key : ∀ gs : List Fragment, gs.Perm fs →
      (((s.clear.gatherAll gs).collected p).map LinkedListFragmentNode.key).Perm
        ((fs.filter (fun f => f.pixel = p)).map Fragment.key) := by
    intro gs hg
    have hlen : gs.length ≤ s.capacity := by rw [hg.length_eq]; exact hcap
    have hfil : (gs.filter (fun f => f.pixel = p)).Perm (fs.filter (fun f => f.pixel = p)) :=
      hg.filter _
    rw [collected_key, chain_gatherAll, List.take_of_length_le hlen, List.take_of_length_le]
    · exact ((List.reverse_perm _).map _).trans (hfil.map _)
    · rw [List.length_map, List.length_reverse, hfil.length_eq]
      exact hcount
  have sorted : ∀ l : List LinkedListFragmentNode,
      ((sortByDepth l).map LinkedListFragmentNode.key).Pairwise (fun x y => x.2 ≤ y.2) := by
    intro l
    rw [List.pairwise_map]
    exact sortByDepth_sorted l
  have h1 := ((sortByDepth_perm ((s.clear.gatherAll fs).collected p)).map
    LinkedListFragmentNode.key).trans (key fs (List.Perm.refl _))
  have h2 := ((sortByDepth_perm ((s.clear.gatherAll fs2).collected p)).map
    LinkedListFragmentNode.key).trans (key fs2 hperm.symm)
  have hd : (((sortByDepth ((s.clear.gatherAll fs).collected p)).map
      LinkedListFragmentNode.key).map Prod.snd).Nodup := by
    refine ((h1.map Prod.snd).nodup_iff).2 ?_
    simpa [List.map_map, Function.comp_def, Fragment.key] using hdepth
  rw [frame_eq, frame_eq, key_sorted_unique _ _ (h1.trans h2.symm) (sorted _) (sorted _) hd]

/-- After the gather pass of any frame, a walk of any length from the head of a pixel reads
no slot twice and reads only slots of the fragment buffer. -/
theorem walk_safe (s : OIT_LinkedList) (fs : List Fragment) (p fuel : Nat) :
    ((walk (s.clear.gatherAll fs).fragmentBuffer fuel
      ((s.clear.gatherAll fs).startOffsetBuffer p)).map Prod.fst).Nodup ∧
    ∀ i ∈ (walk (s.clear.gatherAll fs).fragmentBuffer fuel
      ((s.clear.gatherAll fs).startOffsetBuffer p)).map Prod.fst,
      i < (s.clear.gatherAll fs).capacity := by
  have hlink : (s.clear.gatherAll fs).Linked := linked_gatherAll fs _ (linked_clear s)
  constructor
  · have hpw := walk_pairwise _ hlink fuel _ (fun i hi => hlink.1 p i hi)
    unfold List.Nodup
    rw [List.pairwise_map]
    exact hpw.imp (fun h => Nat.ne_of_gt h)
  · intro i hi
    obtain ⟨x, hx, rfl⟩ := List.mem_map.1 hi
    have := walk_lt _ hlink fuel _ _ (le_refl _) (fun i hi => hlink.1 p i hi) x hx
    simp only [OIT_LinkedList.stored] at this
    omega

/-- The number of entries of the resolved list of a pixel after the gather pass of a frame:
the fragments of the pixel among the first `capacity` of the frame, at most
`linkedListEntriesPerPixel` of them. -/
theorem resolved_length (s : OIT_LinkedList) (fs : List Fragment) (p : Nat) :
    (((s.gatherBegin.gatherAll fs).gatherEnd).resolved p).length =
      min linkedListEntriesPerPixel ((fs.take s.capacity).filter (fun f => f.pixel = p)).length := by
  show (sortByDepth ((s.clear.gatherAll fs).collected p)).length = _
  rw [(sortByDepth_perm _).length_eq, ← List.length_map _ LinkedListFragmentNode.key,
    collected_key, chain_gatherAll]
  simp only [List.length_take, List.length_map, List.length_reverse]

/-- Among the first `n` fragments of a frame there are at least `n` minus the number of
fragments of the other pixels that belong to the pixel, or all of the pixel's fragments. -/
theorem filter_take_length (fs : List Fragment) (p n : Nat) :
    min ((fs.filter (fun f => f.pixel = p)).length)
        (n - (fs.filter (fun f => ¬ f.pixel = p)).length) ≤
      ((fs.take n).filter (fun f => f.pixel = p)).length := by
  have hnot : (fun f : Fragment => decide (¬ f.pixel = p)) = (fun f => !decide (f.pixel = p)) := by
    funext f
    simp
  have hsplit : ∀ l : List Fragment, l.length =
      (l.filter (fun f => f.pixel = p)).length + (l.filter (fun f => ¬ f.pixel = p)).length := by
    intro l
    rw [hnot]
    exact List.length_eq_length_filter_add _
  have h1 := hsplit fs
  have h2 := hsplit (fs.take n)
  have h3 : ((fs.take n).filter (fun f => ¬ f.pixel = p)).length ≤
      (fs.filter (fun f => ¬ f.pixel = p)).length :=
    ((List.take_sublist n fs).filter _).length_le
  have h4 : (fs.take n).length = min n fs.length := List.length_take n fs
  omega

/-- C2 (as amended): after `linkedListEntriesPerPixel + k` fragments, `k ≥ 1`, are submitted
to one pixel in a frame, among fragments of other pixels, the resolved list of that pixel
has at most `linkedListEntriesPerPixel` entries; it has exactly that many if and only if
at least that many of the fragments of the pixel are among the first `capacity` fragments
of the frame, which is so whenever the fragments of the other pixels leave
`linkedListEntriesPerPixel` slots of the buffer; and a walk of any length from the head of
the pixel reads no slot twice and reads only slots of the fragment buffer. -/
theorem overflow_graceful_frame (s : OIT_LinkedList) (p k : Nat) (fs : List Fragment) (hk : 1 ≤ k)
    (hcount : (fs.filter (fun f => f.pixel = p)).length = linkedListEntriesPerPixel + k) :
    (((s.gatherBegin.gatherAll fs).gatherEnd).resolved p).length ≤ linkedListEntriesPerPixel ∧
    ((((s.gatherBegin.gatherAll fs).gatherEnd).resolved p).length = linkedListEntriesPerPixel ↔
      linkedListEntriesPerPixel ≤ ((fs.take s.capacity).filter (fun f => f.pixel = p)).length) ∧
    ((fs.filter (fun f => ¬ f.pixel = p)).length + linkedListEntriesPerPixel ≤ s.capacity →
      (((s.gatherBegin.gatherAll fs).gatherEnd).resolved p).length = linkedListEntriesPerPixel) ∧
    ∀ fuel : Nat,
      ((walk ((s.gatherBegin.gatherAll fs).gatherEnd).fragmentBuffer fuel
        (((s.gatherBegin.gatherAll fs).gatherEnd).startOffsetBuffer p)).map Prod.fst).Nodup ∧
      ∀ i ∈ (walk ((s.gatherBegin.gatherAll fs).gatherEnd).fragmentBuffer fuel
        (((s.gatherBegin.gatherAll fs).gatherEnd).startOffsetBuffer p)).map Prod.fst,
        i < ((s.gatherBegin.gatherAll fs).gatherEnd).capacity := by
  have hlen := resolved_length s fs p
  have htake := filter_take_length fs p s.capacity
  refine ⟨?_, ?_, ?_, fun fuel => walk_safe s fs p fuel⟩
  · rw [hlen]
    exact min_le_left _ _
  · rw [hlen]
    constructor
    · intro h
      omega
    · intro h
      omega
  · intro hfit
    rw [hlen]
    omega

/-- Witness of C1 (as amended): a red and a green fragment of pixel 0 at the depths 1 and 2,
in their two submission orders. -/
theorem frame_order_independent_witness :
    ([⟨0, red, 1⟩, ⟨0, green, 2⟩] : List Fragment).Perm [⟨0, green, 2⟩, ⟨0, red, 1⟩] ∧
    onePixel.frame [⟨0, red, 1⟩, ⟨0, green, 2⟩] black 0 =
      onePixel.frame [⟨0, green, 2⟩, ⟨0, red, 1⟩] black 0 :=
  ⟨List.Perm.swap _ _ _,
   frame_order_independent onePixel black 0 [⟨0, red, 1⟩, ⟨0, green, 2⟩] [⟨0, green, 2⟩, ⟨0, red, 1⟩]
    (List.Perm.swap _ _ _) (by simp [OIT_LinkedList.capacity, onePixel, linkedListEntriesPerPixel])
    (by simp [linkedListEntriesPerPixel]) (by simp)⟩

/-- C1 (as stated) fails: two fragments of one pixel with the same depth give two colors in
their two submission orders, and so do nine fragments of distinct depths on a screen
whose fragment buffer has eight slots. -/
theorem frame_order_dependent :
    (([⟨0, red, 1⟩, ⟨0, green, 1⟩] : List Fragment).Perm [⟨0, green, 1⟩, ⟨0, red, 1⟩] ∧
      onePixel.frame [⟨0, red, 1⟩, ⟨0, green, 1⟩] black 0 ≠
        onePixel.frame [⟨0, green, 1⟩, ⟨0, red, 1⟩] black 0) ∧
    ((⟨0, solidRed, 1⟩ :: eightGreen).Perm (eightGreen ++ [⟨0, solidRed, 1⟩]) ∧
      onePixel.frame (⟨0, solidRed, 1⟩ :: eightGreen) black 0 ≠
        onePixel.frame (eightGreen ++ [⟨0, solidRed, 1⟩]) black 0) := by
  refine ⟨⟨List.Perm.swap _ _ _, ?_⟩, ⟨List.perm_append_singleton _ _ |>.symm, ?_⟩⟩
  · simp [OIT_LinkedList.frame, OIT_LinkedList.gatherBegin, OIT_LinkedList.clear,
      OIT_LinkedList.gatherAll, OIT_LinkedList.gather, OIT_LinkedList.gatherEnd,
      OIT_LinkedList.renderToScreen, OIT_LinkedList.resolved, OIT_LinkedList.collected,
      OIT_LinkedList.capacity, onePixel, linkedListEntriesPerPixel, walk, sortByDepth,
      insertByDepth, composite, blendOver, red, green, black]
  · norm_num [frame_eq_of_fragments, OIT_LinkedList.capacity, onePixel, linkedListEntriesPerPixel,
      sortByDepth, insertByDepth, composite, blendOver, solidRed, solidGreen, black, eightGreen]

/-- Witness of C2 (as amended): three fragments of pixel 0 and nine of pixel 1 on a screen
of two pixels, whose buffer has 16 slots. -/
theorem overflow_graceful_frame_witness :
    ((1 : Nat) ≤ 1 ∧
      ((nineAfter 3).filter (fun f => f.pixel = 1)).length = linkedListEntriesPerPixel + 1) ∧
    (((twoPixels.gatherBegin.gatherAll (nineAfter 3)).gatherEnd).resolved 1).length =
      linkedListEntriesPerPixel :=
  ⟨⟨by decide, by decide⟩,
   (overflow_graceful_frame twoPixels 1 1 (nineAfter 3) (by decide) (by decide)).2.2.1 (by decide)⟩

/-- C2 (as stated) fails: on a screen of two pixels, whose buffer has 16 slots, sixteen
fragments of pixel 0 followed by nine fragments of pixel 1 leave the resolved list of
pixel 1 empty, and twelve followed by nine leave it four entries. -/
theorem overflow_starves_pixel :
    (((nineAfter 16).filter (fun f => f.pixel = 1)).length = linkedListEntriesPerPixel + 1 ∧
      (((twoPixels.gatherBegin.gatherAll (nineAfter 16)).gatherEnd).resolved 1).length = 0) ∧
    (((nineAfter 12).filter (fun f => f.pixel = 1)).length = linkedListEntriesPerPixel + 1 ∧
      (((twoPixels.gatherBegin.gatherAll (nineAfter 12)).gatherEnd).resolved 1).length = 4) := by
  refine ⟨⟨by decide, ?_⟩, by decide, ?_⟩
  · rw [resolved_length]
    decide
  · rw [resolved_length]
    decide

/-! ## Floating-point rounding -/

theorem roundHalfEven_intCast (k : Int) : roundHalfEven (k : ℚ) = k := by
  simp [roundHalfEven]

theorem roundHalfEven_floor_le (m : ℚ) : ⌊m⌋ ≤ roundHalfEven m := by
  unfold roundHalfEven
  split_ifs <;> omega

theorem roundHalfEven_le_floor_succ (m : ℚ) : roundHalfEven m ≤ ⌊m⌋ + 1 := by
  unfold roundHalfEven
  split_ifs <;> omega

/-- Rounding to the nearest integer is monotone. -/
theorem roundHalfEven_mono {a b : ℚ} (h : a ≤ b) : roundHalfEven a ≤ roundHalfEven b := by
  have hf : ⌊a⌋ ≤ ⌊b⌋ := Int.floor_mono h
  rcases lt_or_eq_of_le hf with hlt | heq
  · have := roundHalfEven_le_floor_succ a
    have := roundHalfEven_floor_le b
    omega
  · have hfr : a - ⌊a⌋ ≤ b - ⌊a⌋ := by linarith
    unfold roundHalfEven
    rw [← heq]
    split_ifs <;> first | omega | (exfalso; linarith)

theorem two_zpow_pos (e : Int) : (0 : ℚ) < 2 ^ e := zpow_pos (by norm_num) e

theorem roundNearestEven_zero (p : Nat) (emin : Int) : roundNearestEven p emin 0 = 0 := by
  simp [roundNearestEven, roundHalfEven]

theorem roundNearestEven_nonneg (p : Nat) (emin : Int) {q : ℚ} (h : 0 ≤ q) :
    0 ≤ roundNearestEven p emin q := by
  unfold roundNearestEven
  apply mul_nonneg _ (two_zpow_pos _).le
  have h0 : (0 : ℚ) ≤ q / 2 ^ (max (Int.log 2 |q|) emin + 1 - (p : Int)) :=
    div_nonneg h (two_zpow_pos _).le
  have := roundHalfEven_mono h0
  rw [show roundHalfEven 0 = 0 from by simpa using roundHalfEven_intCast 0] at this
  exact_mod_cast this

/-- A number with a significand below `2 ^ p` and an exponent that the format has is left
unchanged by the rounding. -/
theorem roundNearestEven_mul_zpow (p : Nat) (emin m E : Int) (hm : |m| < 2 ^ p)
    (hE : emin + 1 - (p : Int) ≤ E) :
    roundNearestEven p emin ((m : ℚ) * 2 ^ E) = (m : ℚ) * 2 ^ E := by
  by_cases hm0 : m = 0
  · subst hm0
    simpa using roundNearestEven_zero p emin
  have hq : (0 : ℚ) < |(m : ℚ) * 2 ^ E| := by
    rw [abs_pos]
    exact mul_ne_zero (by exact_mod_cast hm0) (two_zpow_pos E).ne'
  have hlt : |(m : ℚ) * 2 ^ E| < 2 ^ ((p : Int) + E) := by
    rw [abs_mul, abs_of_pos (two_zpow_pos E), zpow_add₀ (by norm_num : (2 : ℚ) ≠ 0)]
    apply mul_lt_mul_of_pos_right _ (two_zpow_pos E)
    rw [zpow_natCast]
    exact_mod_cast hm
  have hlog : Int.log 2 |(m : ℚ) * 2 ^ E| < (p : Int) + E :=
    (Int.lt_zpow_iff_log_lt (by norm_num) hq).1 hlt
  have he : max (Int.log 2 |(m : ℚ) * 2 ^ E|) emin + 1 - (p : Int) ≤ E := by
    rcases max_cases (Int.log 2 |(m : ℚ) * 2 ^ E|) emin with ⟨h1, _⟩ | ⟨h1, _⟩ <;> rw [h1] <;> omega
  unfold roundNearestEven
  generalize max (Int.log 2 |(m : ℚ) * 2 ^ E|) emin + 1 - (p : Int) = u at he
  obtain ⟨n, hn⟩ : ∃ n : Nat, E = u + n := ⟨(E - u).toNat, by omega⟩
  have hdiv : (m : ℚ) * 2 ^ E / 2 ^ u = ((m * 2 ^ n : Int) : ℚ) := by
    rw [hn, zpow_add₀ (by norm_num : (2 : ℚ) ≠ 0), zpow_natCast]
    field_simp
    ring
  rw [hdiv, roundHalfEven_intCast, hn, zpow_add₀ (by norm_num : (2 : ℚ) ≠ 0), zpow_natCast]
  push_cast
  ring

/-- An integer below `2 ^ p` in absolute value is left unchanged by the rounding. -/
theorem roundNearestEven_intCast (p : Nat) (emin n : Int) (hn : |n| < 2 ^ p)
    (he : emin + 1 - (p : Int) ≤ 0) : roundNearestEven p emin (n : ℚ) = n := by
  simpa using roundNearestEven_mul_zpow p emin n 0 hn he

/-- The rounding is monotone on the numbers that are not negative. -/
theorem roundNearestEven_mono (p : Nat) (emin : Int) (hp : 1 ≤ p) {x y : ℚ} (hx : 0 ≤ x)
    (hxy : x ≤ y) : roundNearestEven p emin x ≤ roundNearestEven p emin y := by
  rcases eq_or_lt_of_le hx with h0 | hpos
  · rw [← h0, roundNearestEven_zero]
    exact roundNearestEven_nonneg p emin (hx.trans hxy)
  have hypos : 0 < y := lt_of_lt_of_le hpos hxy
  have hlog : Int.log 2 x ≤ Int.log 2 y := Int.log_mono_right hpos hxy
  have hmax : max (Int.log 2 x) emin ≤ max (Int.log 2 y) emin := max_le_max hlog le_rfl
  unfold roundNearestEven
  rw [abs_of_pos hpos, abs_of_pos hypos]
  rcases eq_or_lt_of_le hmax with heq | hlt
  · rw [heq]
    apply mul_le_mul_of_nonneg_right _ (two_zpow_pos _).le
    exact_mod_cast roundHalfEven_mono (div_le_div_of_nonneg_right hxy (two_zpow_pos _).le)
  · have hxe : Int.log 2 x ≤ max (Int.log 2 x) emin := le_max_left _ _
    have hee : emin ≤ max (Int.log 2 x) emin := le_max_right _ _
    have hey : max (Int.log 2 y) emin = Int.log 2 y := by
      rcases max_cases (Int.log 2 y) emin with ⟨h1, _⟩ | ⟨h1, h2⟩
      · exact h1
      · exfalso
        omega
    rw [hey] at hlt ⊢
    generalize max (Int.log 2 x) emin = ex at hlt hxe hee
    have hylow : (2 : ℚ) ^ Int.log 2 y ≤ y := by
      have h1 := Int.zpow_log_le_self (b := 2) (r := y) (by norm_num) hypos
      exact_mod_cast h1
    have hxup : x < (2 : ℚ) ^ (ex + 1) := by
      have h1 := Int.lt_zpow_succ_log_self (b := 2) (by norm_num) x
      have h2 : x < (2 : ℚ) ^ (Int.log 2 x + 1) := by exact_mod_cast h1
      exact lt_of_lt_of_le h2 (zpow_le_zpow_right₀ (by norm_num) (by omega))
    generalize Int.log 2 y = ey at hlt hylow
    have hcy : ((2 : ℚ) ^ ey) / 2 ^ (ey + 1 - (p : Int)) = (((2 : Int) ^ (p - 1) : Int) : ℚ) := by
      rw [← zpow_sub₀ (by norm_num : (2 : ℚ) ≠ 0)]
      push_cast
      rw [← zpow_natCast]
      congr 1
      omega
    have hmy := roundHalfEven_mono
      (div_le_div_of_nonneg_right hylow (two_zpow_pos (ey + 1 - (p : Int))).le)
    rw [hcy, roundHalfEven_intCast] at hmy
    have hmy2 : (((2 : Int) ^ (p - 1) : Int) : ℚ) ≤
        (roundHalfEven (y / 2 ^ (ey + 1 - (p : Int))) : ℚ) := by exact_mod_cast hmy
    have hRy : (2 : ℚ) ^ ey ≤
        (roundHalfEven (y / 2 ^ (ey + 1 - (p : Int))) : ℚ) * 2 ^ (ey + 1 - (p : Int)) := by
      calc (2 : ℚ) ^ ey
          = ((2 : ℚ) ^ ey / 2 ^ (ey + 1 - (p : Int))) * 2 ^ (ey + 1 - (p : Int)) := by
            field_simp
        _ = (((2 : Int) ^ (p - 1) : Int) : ℚ) * 2 ^ (ey + 1 - (p : Int)) := by rw [hcy]
        _ ≤ _ := mul_le_mul_of_nonneg_right hmy2 (two_zpow_pos _).le
    have hcx : ((2 : ℚ) ^ (ex + 1)) / 2 ^ (ex + 1 - (p : Int)) = (((2 : Int) ^ p : Int) : ℚ) := by
      rw [← zpow_sub₀ (by norm_num : (2 : ℚ) ≠ 0)]
      push_cast
      rw [← zpow_natCast]
      congr 1
      omega
    have hmx := roundHalfEven_mono
      (div_le_div_of_nonneg_right hxup.le (two_zpow_pos (ex + 1 - (p : Int))).le)
    rw [hcx, roundHalfEven_intCast] at hmx
    have hmx2 : (roundHalfEven (x / 2 ^ (ex + 1 - (p : Int))) : ℚ) ≤
        (((2 : Int) ^ p : Int) : ℚ) := by exact_mod_cast hmx
    have hRx : (roundHalfEven (x / 2 ^ (ex + 1 - (p : Int))) : ℚ) * 2 ^ (ex + 1 - (p : Int)) ≤
        (2 : ℚ) ^ (ex + 1) := by
      calc (roundHalfEven (x / 2 ^ (ex + 1 - (p : Int))) : ℚ) * 2 ^ (ex + 1 - (p : Int))
          ≤ (((2 : Int) ^ p : Int) : ℚ) * 2 ^ (ex + 1 - (p : Int)) :=
            mul_le_mul_of_nonneg_right hmx2 (two_zpow_pos _).le
        _ = ((2 : ℚ) ^ (ex + 1) / 2 ^ (ex + 1 - (p : Int))) * 2 ^ (ex + 1 - (p : Int)) := by
            rw [hcx]
        _ = (2 : ℚ) ^ (ex + 1) := by field_simp
    have hstep : (2 : ℚ) ^ (ex + 1) ≤ 2 ^ ey := zpow_le_zpow_right₀ (by norm_num) (by omega)
    exact hRx.trans (hstep.trans hRy)

/-- The rounding of a number of the binade of `2 ^ e`. -/
theorem roundNearestEven_binade (p : Nat) (emin e : Int) (q : ℚ)
    (hlo : (2 : ℚ) ^ e ≤ q ∨ (2 : ℚ) ^ e ≤ -q) (hhi : -(2 : ℚ) ^ (e + 1) < q ∧ q < 2 ^ (e + 1)) :
    roundNearestEven p emin q =
      roundHalfEven (q / 2 ^ (max e emin + 1 - (p : Int))) * 2 ^ (max e emin + 1 - (p : Int)) := by
  have h1 : (2 : ℚ) ^ e ≤ |q| := le_abs.2 hlo
  have h2 : |q| < (2 : ℚ) ^ (e + 1) := abs_lt.2 hhi
  have h0 : 0 < |q| := lt_of_lt_of_le (two_zpow_pos e) h1
  have hlog : Int.log 2 |q| = e := by
    apply le_antisymm
    · have := (Int.lt_zpow_iff_log_lt (b := 2) (by norm_num) h0).1 (by exact_mod_cast h2)
      omega
    · exact (Int.zpow_le_iff_le_log (b := 2) (by norm_num) h0).1 (by exact_mod_cast h1)
  rw [roundNearestEven, hlog]

/-- The `float` of a number of the binade of `2 ^ e`, from its rounded value `r`. -/
theorem toFloat_binade (e : Int) (q r : ℚ)
    (hlo : (2 : ℚ) ^ e ≤ q ∨ (2 : ℚ) ^ e ≤ -q) (hhi : -(2 : ℚ) ^ (e + 1) < q ∧ q < 2 ^ (e + 1))
    (hr : (roundHalfEven (q / 2 ^ (max e (-126) + 1 - ((24 : Nat) : Int))) : ℚ) *
      2 ^ (max e (-126) + 1 - ((24 : Nat) : Int)) = r)
    (hmax : -FLT_MAX ≤ r ∧ r ≤ FLT_MAX) : toFloat q = .finite r := by
  rw [toFloat, roundNearestEven_binade 24 (-126) e q hlo hhi, hr, if_pos (abs_le.2 hmax)]

/-- The `double` of a number of the binade of `2 ^ e`, from its rounded value `r`. -/
theorem toDouble_binade (e : Int) (q r : ℚ)
    (hlo : (2 : ℚ) ^ e ≤ q ∨ (2 : ℚ) ^ e ≤ -q) (hhi : -(2 : ℚ) ^ (e + 1) < q ∧ q < 2 ^ (e + 1))
    (hr : (roundHalfEven (q / 2 ^ (max e (-1022) + 1 - ((53 : Nat) : Int))) : ℚ) *
      2 ^ (max e (-1022) + 1 - ((53 : Nat) : Int)) = r)
    (hmax : -DBL_MAX ≤ r ∧ r ≤ DBL_MAX) : toDouble q = .finite r := by
  rw [toDouble, roundNearestEven_binade 53 (-1022) e q hlo hhi, hr, if_pos (abs_le.2 hmax)]

theorem FLT_MAX_eq : FLT_MAX = (((2 ^ 24 - 1 : Int) : ℚ)) * 2 ^ (104 : Int) := by
  norm_num [FLT_MAX]

/-- A number with a significand below `2 ^ 24`, an exponent of at least -149 and an
absolute value of at most `FLT_MAX` is a `float`. -/
theorem toFloat_mul_zpow (m E : Int) (hm : |m| < 2 ^ 24) (hE : -149 ≤ E)
    (hmax : |(m : ℚ) * 2 ^ E| ≤ FLT_MAX) : toFloat ((m : ℚ) * 2 ^ E) = .finite ((m : ℚ) * 2 ^ E) := by
  rw [toFloat, roundNearestEven_mul_zpow 24 (-126) m E (by exact_mod_cast hm) (by omega),
    if_pos hmax]

/-- An integer below `2 ^ 24` in absolute value is a `float`. -/
theorem toFloat_intCast (n : Int) (hn : |n| < 2 ^ 24) : toFloat (n : ℚ) = .finite n := by
  have h := toFloat_mul_zpow n 0 hn (by norm_num) (by
    rw [zpow_zero, mul_one]
    have h1 : |(n : ℚ)| < 2 ^ 24 := by exact_mod_cast hn
    have h2 : (2 : ℚ) ^ 24 ≤ FLT_MAX := by norm_num [FLT_MAX]
    exact (h1.trans_le h2).le)
  simpa using h

/-- The rounded value of a number between 0 and `FLT_MAX` is its `float`, and lies
between 0 and `FLT_MAX`. -/
theorem toFloat_of_nonneg (q : ℚ) (h0 : 0 ≤ q) (hmax : q ≤ FLT_MAX) :
    toFloat q = .finite (roundNearestEven 24 (-126) q) ∧ 0 ≤ roundNearestEven 24 (-126) q ∧
      roundNearestEven 24 (-126) q ≤ FLT_MAX := by
  have hle : roundNearestEven 24 (-126) q ≤ FLT_MAX := by
    have h := roundNearestEven_mono 24 (-126) (by norm_num) h0 hmax
    rw [FLT_MAX_eq, roundNearestEven_mul_zpow 24 (-126) _ 104 (by norm_num) (by norm_num),
      ← FLT_MAX_eq] at h
    exact h
  have hnn := roundNearestEven_nonneg 24 (-126) h0
  refine ⟨?_, hnn, hle⟩
  rw [toFloat, if_pos (by rw [abs_of_nonneg hnn]; exact hle)]

/-- A `float` is a multiple of `2 ^ (-149)`. -/
theorem toFloat_finite_multiple (q : ℚ) (h : toFloat q = .finite q) :
    ∃ j : Int, q = (j : ℚ) * 2 ^ (-149 : Int) := by
  have hq : roundNearestEven 24 (-126) q = q := by
    unfold toFloat at h
    split at h
    · exact FloatValue.finite.inj h
    · exact absurd h (by simp)
  have hu : (-149 : Int) ≤ max (Int.log 2 |q|) (-126) + 1 - ((24 : Nat) : Int) := by
    have := le_max_right (Int.log 2 |q|) (-126)
    push_cast
    omega
  unfold roundNearestEven at hq
  generalize max (Int.log 2 |q|) (-126) + 1 - ((24 : Nat) : Int) = u at hq hu
  obtain ⟨n, hn⟩ : ∃ n : Nat, u = -149 + n := ⟨(u + 149).toNat, by omega⟩
  generalize roundHalfEven (q / 2 ^ u) = k at hq
  refine ⟨k * 2 ^ n, ?_⟩
  rw [← hq, hn, zpow_add₀ (by norm_num : (2 : ℚ) ≠ 0), zpow_natCast]
  push_cast
  ring

/-- Two different `float`s are at least `2 ^ (-149)` apart, and the `float` of their
difference is above zero. -/
theorem toFloat_sub_pos (a b : ℚ) (ha : toFloat a = .finite a) (hb : toFloat b = .finite b)
    (hab : a < b) (hmax : b - a ≤ FLT_MAX) :
    toFloat (b - a) = .finite (roundNearestEven 24 (-126) (b - a)) ∧
      0 < roundNearestEven 24 (-126) (b - a) := by
  obtain ⟨j, hj⟩ := toFloat_finite_multiple a ha
  obtain ⟨k, hk⟩ := toFloat_finite_multiple b hb
  have hd : b - a = ((k - j : Int) : ℚ) * 2 ^ (-149 : Int) := by
    rw [hj, hk]
    push_cast
    ring
  have hpos : (0 : ℚ) < ((k - j : Int) : ℚ) := by
    have h1 : 0 < b - a := sub_pos.2 hab
    rw [hd] at h1
    exact (mul_pos_iff_of_pos_right (two_zpow_pos _)).1 h1
  have hone : (1 : ℚ) ≤ ((k - j : Int) : ℚ) := by
    have : (0 : Int) < k - j := by exact_mod_cast hpos
    have : (1 : Int) ≤ k - j := this
    exact_mod_cast this
  have hge : (2 : ℚ) ^ (-149 : Int) ≤ b - a := by
    rw [hd]
    exact le_mul_of_one_le_left (two_zpow_pos _).le hone
  have hr := roundNearestEven_mono 24 (-126) (by norm_num) (two_zpow_pos (-149)).le hge
  have he : roundNearestEven 24 (-126) ((2 : ℚ) ^ (-149 : Int)) = 2 ^ (-149 : Int) := by
    have := roundNearestEven_mul_zpow 24 (-126) 1 (-149) (by norm_num) (by norm_num)
    simpa using this
  rw [he] at hr
  exact ⟨(toFloat_of_nonneg (b - a) (sub_pos.2 hab).le hmax).1,
    lt_of_lt_of_le (two_zpow_pos _) hr⟩

theorem foldl_convertSample (log : ℚ → ℚ) (lat lon pressure : Nat → ℚ) (minPressure maxPressure : ℚ)
    (trajectoryIndex timeDim : Nat) (l : List Nat) (acc : List Vec3 × List ℚ) :
    l.foldl (convertSample log lat lon pressure (FloatValue.narrow (logDouble log minPressure))
        (FloatValue.narrow (logDouble log maxPressure)) trajectoryIndex timeDim) acc =
      (acc.1 ++ (l.filter (fun i => 0 < pressure (i + trajectoryIndex * timeDim))).map
          (fun i => mappedPoint log lat lon pressure minPressure maxPressure (i + trajectoryIndex * timeDim)),
       acc.2 ++ (l.filter (fun i => 0 < pressure (i + trajectoryIndex * timeDim))).map
          (fun i => pressure (i + trajectoryIndex * timeDim))) := by
  induction l generalizing acc with
  | nil => simp
  | cons i l ih =>
    rw [List.foldl_cons, ih]
    by_cases hp : 0 < pressure (i + trajectoryIndex * timeDim)
    · have hn : ¬ pressure (i + trajectoryIndex * timeDim) ≤ 0 := not_le.2 hp
      simp [convertSample, hp, hn, mappedPoint, FloatValue.div]
    · have hn : pressure (i + trajectoryIndex * timeDim) ≤ 0 := not_lt.1 hp
      simp [convertSample, hp, hn]

theorem convertTrajectory_eq (log : ℚ → ℚ) (lat lon pressure : Nat → ℚ) (minPressure maxPressure : ℚ)
    (trajectoryIndex timeDim : Nat) :
    convertTrajectory log lat lon pressure (FloatValue.narrow (logDouble log minPressure))
        (FloatValue.narrow (logDouble log maxPressure)) trajectoryIndex timeDim =
      { positions := (keptTimes pressure timeDim trajectoryIndex).map
          (fun i => mappedPoint log lat lon pressure minPressure maxPressure (i + trajectoryIndex * timeDim))
        attributes := [(keptTimes pressure timeDim trajectoryIndex).map
          (fun i => pressure (i + trajectoryIndex * timeDim))] } := by
  simp [convertTrajectory, foldl_convertSample, keptTimes]

theorem foldl_push_nonempty (f : Nat → Trajectory) (l : List Nat) (acc : Trajectories) :
    l.foldl (fun trajectories trajectoryIndex =>
        if (f trajectoryIndex).positions.isEmpty then trajectories
        else trajectories ++ [f trajectoryIndex]) acc =
      acc ++ (l.map f).filter (fun trajectory => !trajectory.positions.isEmpty) := by
  induction l generalizing acc with
  | nil => simp
  | cons t l ih =>
    rw [List.foldl_cons, ih]
    by_cases he : (f t).positions.isEmpty <;> simp [he]

/-- The output of `convertLatLonToCartesian` as a filter and a map over the samples. -/
theorem convertLatLonToCartesian_eq (log : ℚ → ℚ) (lat lon pressure : Nat → ℚ)
    (trajectoryDim timeDim : Nat) :
    convertLatLonToCartesian log lat lon pressure trajectoryDim timeDim =
      ((List.range trajectoryDim).map (fun t =>
        ({ positions := (keptTimes pressure timeDim t).map (fun i =>
              mappedPoint log lat lon pressure (pressureBounds pressure trajectoryDim timeDim).1
                (pressureBounds pressure trajectoryDim timeDim).2 (i + t * timeDim))
           attributes := [(keptTimes pressure timeDim t).map (fun i => pressure (i + t * timeDim))] }
          : Trajectory))).filter
        (fun trajectory => !trajectory.positions.isEmpty) := by
  simp only [convertLatLonToCartesian]
  rw [foldl_push_nonempty (fun t => convertTrajectory log lat lon pressure
    (FloatValue.narrow (logDouble log (pressureBounds pressure trajectoryDim timeDim).1))
    (FloatValue.narrow (logDouble log (pressureBounds pressure trajectoryDim timeDim).2)) t timeDim)]
  simp only [convertTrajectory_eq, List.nil_append]

/-- The two bounds after the first loop over the indices in `l`, started from `acc`. -/
theorem foldl_pressureBoundsStep (pressure : Nat → ℚ) (l : List Nat) (acc : ℚ × ℚ) :
    ((l.foldl (pressureBoundsStep pressure) acc).1 ≤ acc.1 ∧
      (∀ idx ∈ l, 0 < pressure idx → (l.foldl (pressureBoundsStep pressure) acc).1 ≤ pressure idx) ∧
      ((l.foldl (pressureBoundsStep pressure) acc).1 = acc.1 ∨
        ∃ idx ∈ l, 0 < pressure idx ∧ pressure idx = (l.foldl (pressureBoundsStep pressure) acc).1)) ∧
    (acc.2 ≤ (l.foldl (pressureBoundsStep pressure) acc).2 ∧
      (∀ idx ∈ l, pressure idx ≤ (l.foldl (pressureBoundsStep pressure) acc).2) ∧
      ((l.foldl (pressureBoundsStep pressure) acc).2 = acc.2 ∨
        ∃ idx ∈ l, pressure idx = (l.foldl (pressureBoundsStep pressure) acc).2)) := by
  induction l generalizing acc with
  | nil => simp
  | cons a l ih =>
    rw [List.foldl_cons]
    obtain ⟨⟨h1, h2, h3⟩, h4, h5, h6⟩ := ih (pressureBoundsStep pressure acc a)
    have hstep1 : (pressureBoundsStep pressure acc a).1 ≤ acc.1 := by
      simp only [pressureBoundsStep]
      split
      · exact min_le_left _ _
      · exact le_refl _
    have hstep2 : acc.2 ≤ (pressureBoundsStep pressure acc a).2 := le_max_left _ _
    refine ⟨⟨le_trans h1 hstep1, ?_, ?_⟩, le_trans hstep2 h4, ?_, ?_⟩
    · intro idx hidx hpos
      rcases List.mem_cons.1 hidx with rfl | hmem
      · refine le_trans h1 ?_
        simp only [pressureBoundsStep, hpos, if_true]
        exact min_le_right _ _
      · exact h2 idx hmem hpos
    · rcases h3 with h3 | ⟨idx, hmem, hpos, he⟩
      · by_cases hpos : 0 < pressure a
        · rcases min_choice acc.1 (pressure a) with hm | hm
          · left
            rw [h3]
            simp only [pressureBoundsStep, hpos, if_true]
            exact hm
          · right
            refine ⟨a, List.mem_cons_self _ _, hpos, ?_⟩
            rw [h3]
            simp only [pressureBoundsStep, hpos, if_true]
            exact hm.symm
        · left
          rw [h3]
          simp only [pressureBoundsStep, hpos, if_false]
      · exact Or.inr ⟨idx, List.mem_cons_of_mem _ hmem, hpos, he⟩
    · intro idx hidx
      rcases List.mem_cons.1 hidx with rfl | hmem
      · exact le_trans (le_max_right _ _) h4
      · exact h5 idx hmem
    · rcases h6 with h6 | ⟨idx, hmem, he⟩
      · rcases max_choice acc.2 (pressure a) with hm | hm
        · left
          rw [h6]
          exact hm
        · right
          refine ⟨a, List.mem_cons_self _ _, ?_⟩
          rw [h6]
          exact hm.symm
      · exact Or.inr ⟨idx, List.mem_cons_of_mem _ hmem, he⟩

/-! ### Roundings of the worked examples -/

/-- The `double` nearest to the logarithm of 5 is a `double`. -/
theorem toDouble_log_5 : toDouble (7248263982714163 / 4503599627370496) = .finite (7248263982714163 / 4503599627370496) := by
  apply toDouble_binade 0 <;> norm_num [roundHalfEven, DBL_MAX]

/-- The logarithm of 5 as a `float`. -/
theorem toFloat_log_5 : toFloat (7248263982714163 / 4503599627370496) = .finite (843809 / 524288) := by
  apply toFloat_binade 0 <;> norm_num [roundHalfEven, FLT_MAX]

/-- The `double` nearest to the logarithm of 7 is a `double`. -/
theorem toDouble_log_7 : toDouble (8763600222181975 / 4503599627370496) = .finite (8763600222181975 / 4503599627370496) := by
  apply toDouble_binade 0 <;> norm_num [roundHalfEven, DBL_MAX]

/-- The logarithm of 7 as a `float`. -/
theorem toFloat_log_7 : toFloat (8763600222181975 / 4503599627370496) = .finite (16323477 / 8388608) := by
  apply toFloat_binade 0 <;> norm_num [roundHalfEven, FLT_MAX]

/-- The `double` nearest to the logarithm of 100 is a `double`. -/
theorem toDouble_log_100 : toDouble (2592480341699211 / 562949953421312) = .finite (2592480341699211 / 562949953421312) := by
  apply toDouble_binade 2 <;> norm_num [roundHalfEven, DBL_MAX]

/-- The logarithm of 100 as a `float`. -/
theorem toFloat_log_100 : toFloat (2592480341699211 / 562949953421312) = .finite (4828871 / 1048576) := by
  apply toFloat_binade 2 <;> norm_num [roundHalfEven, FLT_MAX]

/-- The `double` nearest to the logarithm of 500 is a `double`. -/
theorem toDouble_log_500 : toDouble (3498513339538481 / 562949953421312) = .finite (3498513339538481 / 562949953421312) := by
  apply toDouble_binade 2 <;> norm_num [roundHalfEven, DBL_MAX]

/-- The logarithm of 500 as a `float`. -/
theorem toFloat_log_500 : toFloat (3498513339538481 / 562949953421312) = .finite (6516489 / 1048576) := by
  apply toFloat_binade 2 <;> norm_num [roundHalfEven, FLT_MAX]

/-- The `double` nearest to the logarithm of 1000 is a `double`. -/
theorem toDouble_log_1000 : toDouble (243045032034301 / 35184372088832) = .finite (243045032034301 / 35184372088832) := by
  apply toDouble_binade 2 <;> norm_num [roundHalfEven, DBL_MAX]

/-- The logarithm of 1000 as a `float`. -/
theorem toFloat_log_1000 : toFloat (243045032034301 / 35184372088832) = .finite (14486613 / 2097152) := by
  apply toFloat_binade 2 <;> norm_num [roundHalfEven, FLT_MAX]

/-- The divisor of line 247 for the bounds 100 and 1000. -/
theorem toFloat_den_a : toFloat (4828871 / 1048576 - 14486613 / 2097152) = .finite (-4828871 / 2097152) := by
  apply toFloat_binade 1 <;> norm_num [roundHalfEven, FLT_MAX]

/-- The dividend of line 247 for the pressure 100 under the upper bound 1000. -/
theorem toDouble_num_a_100 : toDouble (2592480341699211 / 562949953421312 - 14486613 / 2097152) = .finite (-1296240224851317 / 562949953421312) := by
  apply toDouble_binade 1 <;> norm_num [roundHalfEven, DBL_MAX]

/-- The quotient of line 247 for the pressure 100 between the bounds 100 and 1000. -/
theorem toDouble_quo_a_100 : toDouble ((-1296240224851317 / 562949953421312) / (-4828871 / 2097152)) = .finite (4503599752451269 / 4503599627370496) := by
  apply toDouble_binade 0 <;> norm_num [roundHalfEven, DBL_MAX]

/-- The coordinate `y` for the pressure 100 between the bounds 100 and 1000. -/
theorem toFloat_y_a_100 : toFloat (4503599752451269 / 4503599627370496) = .finite 1 := by
  apply toFloat_binade 0 <;> norm_num [roundHalfEven, FLT_MAX]

/-- The dividend of line 247 for the pressure 500 under the upper bound 1000. -/
theorem toDouble_num_a_500 : toDouble (3498513339538481 / 562949953421312 - 14486613 / 2097152) = .finite (-390207227012047 / 562949953421312) := by
  apply toDouble_binade (-1) <;> norm_num [roundHalfEven, DBL_MAX]

/-- The quotient of line 247 for the pressure 500 between the bounds 100 and 1000. -/
theorem toDouble_quo_a_500 : toDouble ((-390207227012047 / 562949953421312) / (-4828871 / 2097152)) = .finite (5422874980377109 / 18014398509481984) := by
  apply toDouble_binade (-2) <;> norm_num [roundHalfEven, DBL_MAX]

/-- The coordinate `y` for the pressure 500 between the bounds 100 and 1000. -/
theorem toFloat_y_a_500 : toFloat (5422874980377109 / 18014398509481984) = .finite (2525223 / 8388608) := by
  apply toFloat_binade (-2) <;> norm_num [roundHalfEven, FLT_MAX]

/-- The dividend of line 247 for the pressure 1000 under the upper bound 1000. -/
theorem toDouble_num_a_1000 : toDouble (243045032034301 / 35184372088832 - 14486613 / 2097152) = .finite (-3375107 / 35184372088832) := by
  apply toDouble_binade (-24) <;> norm_num [roundHalfEven, DBL_MAX]

/-- The quotient of line 247 for the pressure 1000 between the bounds 100 and 1000. -/
theorem toDouble_quo_a_1000 : toDouble ((-3375107 / 35184372088832) / (-4828871 / 2097152)) = .finite (3147760755575279 / 75557863725914323419136) := by
  apply toDouble_binade (-25) <;> norm_num [roundHalfEven, DBL_MAX]

/-- The coordinate `y` for the pressure 1000 between the bounds 100 and 1000. -/
theorem toFloat_y_a_1000 : toFloat (3147760755575279 / 75557863725914323419136) = .finite (11726323 / 281474976710656) := by
  apply toFloat_binade (-25) <;> norm_num [roundHalfEven, FLT_MAX]

/-- The divisor of line 247 for the bounds 5 and 7. -/
theorem toFloat_den_b : toFloat (843809 / 524288 - 16323477 / 8388608) = .finite (-2822533 / 8388608) := by
  apply toFloat_binade (-2) <;> norm_num [roundHalfEven, FLT_MAX]

/-- The dividend of line 247 for the pressure 5 under the upper bound 7. -/
theorem toDouble_num_b_5 : toDouble (7248263982714163 / 4503599627370496 - 16323477 / 8388608) = .finite (-1515336001286861 / 4503599627370496) := by
  apply toDouble_binade (-2) <;> norm_num [roundHalfEven, DBL_MAX]

/-- The quotient of line 247 for the pressure 5 between the bounds 5 and 7. -/
theorem toDouble_quo_b_5 : toDouble ((-1515336001286861 / 4503599627370496) / (-2822533 / 8388608)) = .finite (4503600029860757 / 4503599627370496) := by
  apply toDouble_binade 0 <;> norm_num [roundHalfEven, DBL_MAX]

/-- The coordinate `y` for the pressure 5 between the bounds 5 and 7. -/
theorem toFloat_y_b_5 : toFloat (4503600029860757 / 4503599627370496) = .finite (8388609 / 8388608) := by
  apply toFloat_binade 0 <;> norm_num [roundHalfEven, FLT_MAX]

/-- The dividend of line 247 for the pressure 7 under the upper bound 7. -/
theorem toDouble_num_b_7 : toDouble (8763600222181975 / 4503599627370496 - 16323477 / 8388608) = .finite (238180951 / 4503599627370496) := by
  apply toDouble_binade (-25) <;> norm_num [roundHalfEven, DBL_MAX]

/-- The quotient of line 247 for the pressure 7 between the bounds 5 and 7. -/
theorem toDouble_quo_b_7 : toDouble ((238180951 / 4503599627370496) / (-2822533 / 8388608)) = .finite (-2969051984319001 / 18889465931478580854784) := by
  apply toDouble_binade (-23) <;> norm_num [roundHalfEven, DBL_MAX]

/-- The coordinate `y` for the pressure 7 between the bounds 5 and 7. -/
theorem toFloat_y_b_7 : toFloat (-2969051984319001 / 18889465931478580854784) = .finite (-11060581 / 70368744177664) := by
  apply toFloat_binade (-23) <;> norm_num [roundHalfEven, FLT_MAX]

theorem nearestLog_5 : nearestLog 5 = 7248263982714163 / 4503599627370496 := by
  norm_num [nearestLog]

theorem nearestLog_7 : nearestLog 7 = 8763600222181975 / 4503599627370496 := by
  norm_num [nearestLog]

theorem nearestLog_100 : nearestLog 100 = 2592480341699211 / 562949953421312 := by
  norm_num [nearestLog]

theorem nearestLog_500 : nearestLog 500 = 3498513339538481 / 562949953421312 := by
  norm_num [nearestLog]

theorem nearestLog_1000 : nearestLog 1000 = 243045032034301 / 35184372088832 := by
  norm_num [nearestLog]

/-- The coordinate `y` of a sample from the roundings of line 230, line 231 and line 247,
when the two `float` logarithms differ. -/
theorem mappedPoint_y (log : ℚ → ℚ) (lat lon pressure : Nat → ℚ) (minPressure maxPressure : ℚ)
    (index : Nat) (lp lmin lmax lminF lmaxF num den quo y : ℚ) (hp : 0 < pressure index)
    (hmin : 0 < minPressure) (hmax : 0 < maxPressure)
    (hlp : toDouble (log (pressure index)) = .finite lp)
    (hlmin : toDouble (log minPressure) = .finite lmin)
    (hlmax : toDouble (log maxPressure) = .finite lmax)
    (h1 : toFloat lmin = .finite lminF) (h2 : toFloat lmax = .finite lmaxF)
    (h3 : toDouble (lp - lmaxF) = .finite num) (h4 : toFloat (lminF - lmaxF) = .finite den)
    (hden : den ≠ 0) (h5 : toDouble (num / den) = .finite quo) (h6 : toFloat quo = .finite y) :
    (mappedPoint log lat lon pressure minPressure maxPressure index).y = .finite y := by
  simp only [mappedPoint, logDouble, if_pos hp, if_pos hmin, if_pos hmax, hlp, hlmin, hlmax,
    FloatValue.narrow, h1, h2, FloatValue.sub, h3, h4, FloatValue.div, if_neg hden, h5, h6]

/-- The coordinates `x` and `z` of the worked example of the specification. -/
theorem toFloat_sample_xz : toFloat (2500 / 100) = .finite 25 ∧ toFloat (-1500 / 100) = .finite (-15) := by
  have h1 := toFloat_intCast 25 (by norm_num)
  have h2 := toFloat_intCast (-15) (by norm_num)
  norm_num at h1 h2 ⊢
  exact ⟨h1, h2⟩

/-- A stored point from its three coordinates. -/
theorem mappedPoint_eq (log : ℚ → ℚ) (lat lon pressure : Nat → ℚ) (minPressure maxPressure : ℚ)
    (index : Nat) (x y z : FloatValue) (hx : toFloat (lat index / 100) = x)
    (hy : (mappedPoint log lat lon pressure minPressure maxPressure index).y = y)
    (hz : toFloat (lon index / 100) = z) :
    mappedPoint log lat lon pressure minPressure maxPressure index = ⟨x, y, z⟩ := by
  subst hx hy hz
  rfl

/-- The points of the worked example with the nearest logarithms. -/
theorem mappedPoint_samplePressure :
    mappedPoint nearestLog sampleLat sampleLon samplePressure 100 1000 0 =
      ⟨.finite 25, .finite 1, .finite (-15)⟩ ∧
    mappedPoint nearestLog sampleLat sampleLon samplePressure 100 1000 1 =
      ⟨.finite 25, .finite (2525223 / 8388608), .finite (-15)⟩ ∧
    mappedPoint nearestLog sampleLat sampleLon samplePressure 100 1000 2 =
      ⟨.finite 25, .finite (11726323 / 281474976710656), .finite (-15)⟩ := by
  refine ⟨?_, ?_, ?_⟩
  · exact mappedPoint_eq _ _ _ _ _ _ _ _ _ _ toFloat_sample_xz.1
      (mappedPoint_y nearestLog sampleLat sampleLon samplePressure 100 1000 0
        _ _ _ _ _ _ _ _ _ (by norm_num [samplePressure]) (by norm_num) (by norm_num)
        (by show toDouble (nearestLog 100) = _; rw [nearestLog_100]; exact toDouble_log_100)
        (by rw [nearestLog_100]; exact toDouble_log_100)
        (by rw [nearestLog_1000]; exact toDouble_log_1000)
        toFloat_log_100 toFloat_log_1000 toDouble_num_a_100 toFloat_den_a (by norm_num)
        toDouble_quo_a_100 toFloat_y_a_100) toFloat_sample_xz.2
  · exact mappedPoint_eq _ _ _ _ _ _ _ _ _ _ toFloat_sample_xz.1
      (mappedPoint_y nearestLog sampleLat sampleLon samplePressure 100 1000 1
        _ _ _ _ _ _ _ _ _ (by norm_num [samplePressure]) (by norm_num) (by norm_num)
        (by show toDouble (nearestLog 500) = _; rw [nearestLog_500]; exact toDouble_log_500)
        (by rw [nearestLog_100]; exact toDouble_log_100)
        (by rw [nearestLog_1000]; exact toDouble_log_1000)
        toFloat_log_100 toFloat_log_1000 toDouble_num_a_500 toFloat_den_a (by norm_num)
        toDouble_quo_a_500 toFloat_y_a_500) toFloat_sample_xz.2
  · exact mappedPoint_eq _ _ _ _ _ _ _ _ _ _ toFloat_sample_xz.1
      (mappedPoint_y nearestLog sampleLat sampleLon samplePressure 100 1000 2
        _ _ _ _ _ _ _ _ _ (by norm_num [samplePressure]) (by norm_num) (by norm_num)
        (by show toDouble (nearestLog 1000) = _; rw [nearestLog_1000]; exact toDouble_log_1000)
        (by rw [nearestLog_100]; exact toDouble_log_100)
        (by rw [nearestLog_1000]; exact toDouble_log_1000)
        toFloat_log_100 toFloat_log_1000 toDouble_num_a_1000 toFloat_den_a (by norm_num)
        toDouble_quo_a_1000 toFloat_y_a_1000) toFloat_sample_xz.2

/-! ### The claims on the conversion -/

theorem toFloat_zero : toFloat 0 = .finite 0 := by
  simpa using toFloat_intCast 0 (by norm_num)

/-- C4: the output of `convertLatLonToCartesian` holds, for each input trajectory in
order, the mapped points and the pressures of exactly the samples whose pressure is
above zero, in time order; a trajectory without such a sample is left out. -/
theorem convert_culls (log : ℚ → ℚ) (lat lon pressure : Nat → ℚ) (trajectoryDim timeDim : Nat) :
    convertLatLonToCartesian log lat lon pressure trajectoryDim timeDim =
      ((List.range trajectoryDim).map (fun t =>
        ({ positions :=
            ((List.range timeDim).filter (fun i => 0 < pressure (i + t * timeDim))).map (fun i =>
              mappedPoint log lat lon pressure (pressureBounds pressure trajectoryDim timeDim).1
                (pressureBounds pressure trajectoryDim timeDim).2 (i + t * timeDim))
           attributes :=
            [((List.range timeDim).filter (fun i => 0 < pressure (i + t * timeDim))).map
              (fun i => pressure (i + t * timeDim))] } : Trajectory))).filter
        (fun trajectory => !trajectory.positions.isEmpty) :=
  convertLatLonToCartesian_eq log lat lon pressure trajectoryDim timeDim

/-- C6: when some sample has a pressure above zero (all samples being finite floats), the
`minPressure` of `convertLatLonToCartesian` is the least and its `maxPressure` the
greatest pressure among the samples with pressure above zero. -/
theorem pressureBounds_positive (pressure : Nat → ℚ) (trajectoryDim timeDim : Nat)
    (hpos : ∃ idx, idx < trajectoryDim * timeDim ∧ 0 < pressure idx)
    (hfin : ∀ idx, idx < trajectoryDim * timeDim → pressure idx ≤ FLT_MAX) :
    ((∃ idx, idx < trajectoryDim * timeDim ∧ 0 < pressure idx ∧
        pressure idx = (pressureBounds pressure trajectoryDim timeDim).1) ∧
      (∀ idx, idx < trajectoryDim * timeDim → 0 < pressure idx →
        (pressureBounds pressure trajectoryDim timeDim).1 ≤ pressure idx)) ∧
    ((∃ idx, idx < trajectoryDim * timeDim ∧ 0 < pressure idx ∧
        pressure idx = (pressureBounds pressure trajectoryDim timeDim).2) ∧
      (∀ idx, idx < trajectoryDim * timeDim → 0 < pressure idx →
        pressure idx ≤ (pressureBounds pressure trajectoryDim timeDim).2)) := by
  obtain ⟨i0, hi0, hp0⟩ := hpos
  obtain ⟨⟨_, h2, h3⟩, _, h5, h6⟩ := foldl_pressureBoundsStep pressure
    (List.range (trajectoryDim * timeDim)) (FLT_MAX, -FLT_MAX)
  have hmem : ∀ idx, idx < trajectoryDim * timeDim → idx ∈ List.range (trajectoryDim * timeDim) :=
    fun idx h => List.mem_range.2 h
  have hF : (0 : ℚ) < FLT_MAX := by norm_num [FLT_MAX]
  refine ⟨⟨?_, fun idx h hp => h2 idx (hmem idx h) hp⟩, ?_, fun idx h _ => h5 idx (hmem idx h)⟩
  · rcases h3 with h3 | ⟨idx, hm, hp, he⟩
    · refine ⟨i0, hi0, hp0, le_antisymm ?_ (h2 i0 (hmem i0 hi0) hp0)⟩
      show pressure i0 ≤ (pressureBounds pressure trajectoryDim timeDim).1
      rw [pressureBounds, h3]
      exact hfin i0 hi0
    · exact ⟨idx, List.mem_range.1 hm, hp, he⟩
  · rcases h6 with h6 | ⟨idx, hm, he⟩
    · exfalso
      have h := h5 i0 (hmem i0 hi0)
      rw [h6] at h
      simp only at h
      linarith
    · refine ⟨idx, List.mem_range.1 hm, ?_, he⟩
      rw [he]
      exact lt_of_lt_of_le hp0 (h5 i0 (hmem i0 hi0))

/-- The bounds of the worked example of the specification. -/
theorem pressureBounds_samplePressure : pressureBounds samplePressure 1 3 = (100, 1000) := by
  norm_num [pressureBounds, pressureBoundsStep, samplePressure, FLT_MAX, List.range_succ]

/-- The output for the samples of the worked example, whatever the library logarithm. -/
theorem convert_samplePressure (log : ℚ → ℚ) :
    convertLatLonToCartesian log sampleLat sampleLon samplePressure 1 3 =
      [{ positions := [mappedPoint log sampleLat sampleLon samplePressure 100 1000 0,
                       mappedPoint log sampleLat sampleLon samplePressure 100 1000 1,
                       mappedPoint log sampleLat sampleLon samplePressure 100 1000 2]
         attributes := [[100, 500, 1000]] }] := by
  rw [convertLatLonToCartesian_eq, pressureBounds_samplePressure]
  norm_num [keptTimes, samplePressure, List.range_succ]

/-- The bounds of the pressures 5 and 7. -/
theorem pressureBounds_fiveSeven : pressureBounds fiveSeven 1 2 = (5, 7) := by
  norm_num [pressureBounds, pressureBoundsStep, fiveSeven, FLT_MAX, List.range_succ]

/-- The output for the pressures 5 and 7, whatever the library logarithm. -/
theorem convert_fiveSeven (log : ℚ → ℚ) :
    convertLatLonToCartesian log sampleLat sampleLon fiveSeven 1 2 =
      [{ positions := [mappedPoint log sampleLat sampleLon fiveSeven 5 7 0,
                       mappedPoint log sampleLat sampleLon fiveSeven 5 7 1]
         attributes := [[5, 7]] }] := by
  rw [convertLatLonToCartesian_eq, pressureBounds_fiveSeven]
  norm_num [keptTimes, fiveSeven, List.range_succ]

/-- The points for the pressures 5 and 7 with the nearest logarithms. -/
theorem mappedPoint_fiveSeven :
    mappedPoint nearestLog sampleLat sampleLon fiveSeven 5 7 0 =
      ⟨.finite 25, .finite (8388609 / 8388608), .finite (-15)⟩ ∧
    mappedPoint nearestLog sampleLat sampleLon fiveSeven 5 7 1 =
      ⟨.finite 25, .finite (-11060581 / 70368744177664), .finite (-15)⟩ := by
  refine ⟨?_, ?_⟩
  · exact mappedPoint_eq _ _ _ _ _ _ _ _ _ _ toFloat_sample_xz.1
      (mappedPoint_y nearestLog sampleLat sampleLon fiveSeven 5 7 0
        _ _ _ _ _ _ _ _ _ (by norm_num [fiveSeven]) (by norm_num) (by norm_num)
        (by show toDouble (nearestLog 5) = _; rw [nearestLog_5]; exact toDouble_log_5)
        (by rw [nearestLog_5]; exact toDouble_log_5)
        (by rw [nearestLog_7]; exact toDouble_log_7)
        toFloat_log_5 toFloat_log_7 toDouble_num_b_5 toFloat_den_b (by norm_num)
        toDouble_quo_b_5 toFloat_y_b_5) toFloat_sample_xz.2
  · exact mappedPoint_eq _ _ _ _ _ _ _ _ _ _ toFloat_sample_xz.1
      (mappedPoint_y nearestLog sampleLat sampleLon fiveSeven 5 7 1
        _ _ _ _ _ _ _ _ _ (by norm_num [fiveSeven]) (by norm_num) (by norm_num)
        (by show toDouble (nearestLog 7) = _; rw [nearestLog_7]; exact toDouble_log_7)
        (by rw [nearestLog_5]; exact toDouble_log_5)
        (by rw [nearestLog_7]; exact toDouble_log_7)
        toFloat_log_5 toFloat_log_7 toDouble_num_b_7 toFloat_den_b (by norm_num)
        toDouble_quo_b_7 toFloat_y_b_7) toFloat_sample_xz.2

/-- Witness of C6: two trajectories with one missing sample. -/
theorem pressureBounds_positive_witness :
    ((∃ idx, idx < 2 * 2 ∧ 0 < gappyPressure idx) ∧
      (∀ idx, idx < 2 * 2 → gappyPressure idx ≤ FLT_MAX)) ∧
    ((∃ idx, idx < 2 * 2 ∧ 0 < gappyPressure idx ∧
        gappyPressure idx = (pressureBounds gappyPressure 2 2).1) ∧
      (∀ idx, idx < 2 * 2 → 0 < gappyPressure idx →
        (pressureBounds gappyPressure 2 2).1 ≤ gappyPressure idx)) ∧
    ((∃ idx, idx < 2 * 2 ∧ 0 < gappyPressure idx ∧
        gappyPressure idx = (pressureBounds gappyPressure 2 2).2) ∧
      (∀ idx, idx < 2 * 2 → 0 < gappyPressure idx →
        gappyPressure idx ≤ (pressureBounds gappyPressure 2 2).2)) :=
  have h1 : ∃ idx, idx < 2 * 2 ∧ 0 < gappyPressure idx := ⟨0, by decide, by norm_num [gappyPressure]⟩
  have h2 : ∀ idx, idx < 2 * 2 → gappyPressure idx ≤ FLT_MAX := by
    intro idx h
    interval_cases idx <;> norm_num [gappyPressure, FLT_MAX]
  ⟨⟨h1, h2⟩, pressureBounds_positive gappyPressure 2 2 h1 h2⟩

/-! ## Export -/

theorem foldlM_writeVertex (trajectory : Trajectory) (pressureAttr : List ℚ)
    (ha : trajectory.attributes[0]? = some pressureAttr) :
    ∀ (ps : List Vec3) (as : List ℚ) (k : Nat) (outfile : List ObjLine),
      trajectory.positions.drop k = ps → pressureAttr.drop k = as → ps.length ≤ as.length →
      (List.range' k ps.length).foldlM (writeVertex trajectory) outfile =
        Except.ok (outfile ++ (ps.zip as).flatMap
          (fun pa => [ObjLine.v pa.1.x pa.1.y pa.1.z, ObjLine.vt pa.2])) := by
  intro ps
  induction ps with
  | nil => intro as k outfile _ _ _; simp [pure, Except.pure]
  | cons p ps ih =>
    intro as k outfile hps has hlen
    cases as with
    | nil => simp at hlen
    | cons a as =>
      have hp : trajectory.positions[k]? = some p := by
        have := List.getElem?_drop trajectory.positions k 0
        rw [hps] at this
        simpa using this.symm
      have hak : pressureAttr[k]? = some a := by
        have := List.getElem?_drop pressureAttr k 0
        rw [has] at this
        simpa using this.symm
      have hps2 : trajectory.positions.drop (k + 1) = ps := by
        rw [← List.drop_drop, hps]
        rfl
      have has2 : pressureAttr.drop (k + 1) = as := by
        rw [← List.drop_drop, has]
        rfl
      have hstep : writeVertex trajectory outfile k =
          Except.ok (outfile ++ [ObjLine.v p.x p.y p.z] ++ [ObjLine.vt a]) := by
        simp [writeVertex, hp, ha, hak]
      rw [List.length_cons, List.range'_succ, List.foldlM_cons, hstep]
      show (List.range' (k + 1) ps.length).foldlM (writeVertex trajectory) _ = _
      rw [ih as (k + 1) _ hps2 has2 (by simpa using hlen)]
      simp [List.flatMap_cons]

theorem writePolyline_eq (trajectorySize objPointIndex : Nat) :
    writePolyline trajectorySize objPointIndex =
      (List.range' objPointIndex trajectorySize, objPointIndex + trajectorySize) := by
  have h : ∀ (m s : Nat) (acc : List Nat × Nat),
      (List.range' s m).foldl (fun acc _ => (acc.1 ++ [acc.2], acc.2 + 1)) acc =
        (acc.1 ++ List.range' acc.2 m, acc.2 + m) := by
    intro m
    induction m with
    | zero => intro s acc; simp
    | succ m ih =>
      intro s acc
      rw [List.range'_succ, List.foldl_cons, ih]
      simp [List.range'_succ, Nat.add_assoc, Nat.add_comm 1 m]
  rw [writePolyline, h]
  simp

theorem countP_vertexLines (trajectory : Trajectory) (pressureAttr : List ℚ)
    (ha : trajectory.attributes[0]? = some pressureAttr)
    (hlen : trajectory.positions.length ≤ pressureAttr.length) :
    (vertexLines trajectory).countP ObjLine.isVertex = trajectory.positions.length ∧
    (vertexLines trajectory).countP ObjLine.isPolyline = 0 := by
  have hh : trajectory.attributes.headD [] = pressureAttr := by
    cases h : trajectory.attributes with
    | nil => rw [h] at ha; simp at ha
    | cons x xs => rw [h] at ha; simpa using ha
  rw [vertexLines, hh]
  have h : ∀ (ps : List Vec3) (as : List ℚ), ps.length ≤ as.length →
      ((ps.zip as).flatMap (fun pa => [ObjLine.v pa.1.x pa.1.y pa.1.z, ObjLine.vt pa.2])).countP
          ObjLine.isVertex = ps.length ∧
      ((ps.zip as).flatMap (fun pa => [ObjLine.v pa.1.x pa.1.y pa.1.z, ObjLine.vt pa.2])).countP
          ObjLine.isPolyline = 0 := by
    intro ps
    induction ps with
    | nil => intro as _; simp
    | cons p ps ih =>
      intro as hl
      cases as with
      | nil => simp at hl
      | cons a as =>
        obtain ⟨h1, h2⟩ := ih as (by simpa using hl)
        simp only [List.zip_cons_cons, List.flatMap_cons, List.countP_append, h1, h2]
        constructor
        · simp [List.countP_cons, ObjLine.isVertex]
          omega
        · simp [List.countP_cons, ObjLine.isPolyline]
  exact h _ _ hlen

theorem exportTrajectory_eq (trajectories : Trajectories) (trajectory : Trajectory) (n : Nat)
    (st : ExportState) (hn : trajectories[n]? = some trajectory) (hc : st.Counted)
    (hwf : 2 ≤ trajectory.positions.length →
      ∃ pressureAttr, trajectory.attributes[0]? = some pressureAttr ∧
        trajectory.positions.length ≤ pressureAttr.length) :
    ∃ st2 : ExportState, exportTrajectory trajectories st n = Except.ok st2 ∧ st2.Counted ∧
      st2.outfile = st.outfile ++ contribution st.outfile trajectory := by
  by_cases h2 : trajectory.positions.length < 2
  · exact ⟨st, by simp [exportTrajectory, hn, h2], hc, by simp [contribution, h2]⟩
  · obtain ⟨pressureAttr, ha, hlen⟩ := hwf (by omega)
    have hfold := foldlM_writeVertex trajectory pressureAttr ha trajectory.positions pressureAttr 0
      st.outfile rfl rfl hlen
    rw [← List.range_eq_range'] at hfold
    have hh : trajectory.attributes.headD [] = pressureAttr := by
      cases h : trajectory.attributes with
      | nil => rw [h] at ha; simp at ha
      | cons x xs => rw [h] at ha; simpa using ha
    obtain ⟨hv, hl⟩ := countP_vertexLines trajectory pressureAttr ha hlen
    have hvl : vertexLines trajectory = (trajectory.positions.zip pressureAttr).flatMap
        (fun pa => [ObjLine.v pa.1.x pa.1.y pa.1.z, ObjLine.vt pa.2]) := by
      rw [vertexLines, hh]
    refine ⟨_, by simp only [exportTrajectory, hn, h2, if_false, hfold, writePolyline_eq]; rfl, ?_, ?_⟩
    · constructor
      · simp only [List.countP_append, ← hvl, hv, hc.1]
        simp [List.countP_cons, ObjLine.isVertex]
        omega
      · simp only [List.countP_append, ← hvl, hl, hc.2]
        simp [List.countP_cons, ObjLine.isPolyline]
    · simp only [contribution, h2, if_false, ← hvl, hc.1, hc.2]
      simp

theorem foldlM_exportTrajectory_congr (f g : ExportState → Nat → Except (List ObjLine) ExportState) :
    ∀ (l : List Nat) (init : ExportState), (∀ i ∈ l, ∀ st, f st i = g st i) →
      l.foldlM f init = l.foldlM g init := by
  intro l
  induction l with
  | nil => intro init _; rfl
  | cons a l ih =>
    intro init h
    rw [List.foldlM_cons, List.foldlM_cons, h a (List.mem_cons_self _ _)]
    congr 1
    funext st
    exact ih st (fun i hi => h i (List.mem_cons_of_mem _ hi))

theorem foldlM_exportTrajectory_append (ts : Trajectories) (t : Trajectory) (init : ExportState) :
    (List.range (ts ++ [t]).length).foldlM (exportTrajectory (ts ++ [t])) init =
      ((List.range ts.length).foldlM (exportTrajectory ts) init >>= fun st =>
        exportTrajectory (ts ++ [t]) st ts.length) := by
  rw [List.length_append, List.length_singleton, List.range_succ, List.foldlM_append]
  rw [foldlM_exportTrajectory_congr (exportTrajectory (ts ++ [t])) (exportTrajectory ts)]
  · congr 1
    funext st
    simp [List.foldlM_cons]
  · intro i hi st
    have : i < ts.length := List.mem_range.1 hi
    simp [exportTrajectory, List.getElem?_append_left this]

/-- The outer loop of `exportObjFile` on a collection with an attribute per point ends
without an exception, its counters counting the lines written. -/
theorem foldlM_exportTrajectory_ok (ts : Trajectories) (hwf : AttributePerPoint ts) :
    ∃ st : ExportState,
      (List.range ts.length).foldlM (exportTrajectory ts)
        { outfile := [], objPointIndex := 1, trajectoryFileIndex := 0 } = Except.ok st ∧
      st.Counted := by
  induction ts using List.reverseRecOn with
  | nil => exact ⟨_, rfl, by simp [ExportState.Counted]⟩
  | append_singleton ts t ih =>
    obtain ⟨st, hst, hc⟩ := ih (fun u hu => hwf u (List.mem_append_left _ hu))
    obtain ⟨st2, h2, hc2, _⟩ := exportTrajectory_eq (ts ++ [t]) t ts.length st
      (by simp) hc (hwf t (by simp))
    refine ⟨st2, ?_, hc2⟩
    rw [foldlM_exportTrajectory_append, hst]
    exact h2

/-- C7 (as amended): for a trajectory collection in which every trajectory of two or more
points has a first attribute series with an entry for each point, `exportObjFile` writes
nothing for the empty collection, and a further trajectory appends, to the file of the
collection before it, nothing when it has fewer than two points and otherwise one vertex
line and one texture-coordinate line per point, its group line and exactly one polyline,
whose indices are consecutive and are the 1-based positions of its own vertices among all
vertex lines of the file. -/
theorem export_structure (ts : Trajectories) (t : Trajectory) (hwf : AttributePerPoint (ts ++ [t])) :
    exportObjFile true [] = ExportOutcome.closed [] ∧
    ∃ written, exportObjFile true ts = ExportOutcome.closed written ∧
      exportObjFile true (ts ++ [t]) = ExportOutcome.closed (written ++ contribution written t) := by
  refine ⟨rfl, ?_⟩
  obtain ⟨st, hst, hc⟩ := foldlM_exportTrajectory_ok ts (fun u hu => hwf u (List.mem_append_left _ hu))
  obtain ⟨st2, h2, _, hout⟩ := exportTrajectory_eq (ts ++ [t]) t ts.length st
    (by simp) hc (hwf t (by simp))
  refine ⟨st.outfile, ?_, ?_⟩
  · simp only [exportObjFile, Bool.not_true, Bool.false_eq_true, if_false, hst]
  · simp only [exportObjFile, Bool.not_true, Bool.false_eq_true, if_false]
    rw [foldlM_exportTrajectory_append, hst]
    show (match exportTrajectory (ts ++ [t]) st ts.length with
      | Except.error written => ExportOutcome.outOfRange written
      | Except.ok st => ExportOutcome.closed st.outfile) = _
    rw [h2, ← hout]

/-- Witness of C7: two trajectories of two points around one of a single point. -/
theorem export_structure_witness :
    AttributePerPoint ([twoPoints, onePoint] ++ [twoPoints]) ∧
    exportObjFile true [] = ExportOutcome.closed [] ∧
    ∃ written, exportObjFile true [twoPoints, onePoint] = ExportOutcome.closed written ∧
      exportObjFile true ([twoPoints, onePoint] ++ [twoPoints]) =
        ExportOutcome.closed (written ++ contribution written twoPoints) :=
  have hwf : AttributePerPoint ([twoPoints, onePoint] ++ [twoPoints]) := by
    intro u hu _
    simp only [List.cons_append, List.nil_append, List.mem_cons, List.mem_singleton,
      List.not_mem_nil, or_false] at hu
    rcases hu with rfl | rfl | rfl
    · exact ⟨[7, 8], rfl, by simp [twoPoints]⟩
    · exact ⟨[9], rfl, by simp [onePoint]⟩
    · exact ⟨[7, 8], rfl, by simp [twoPoints]⟩
  ⟨hwf, export_structure [twoPoints, onePoint] twoPoints hwf⟩

/-- C7 (as stated) fails: for a trajectory of two points that has no attribute series,
`.at(0)` throws after the first vertex line, so that neither a texture-coordinate line
nor a polyline is written. -/
theorem export_throws_without_attributes :
    2 ≤ noAttributes.positions.length ∧
    exportObjFile true [noAttributes] = ExportOutcome.outOfRange [ObjLine.v 1 2 3] := by
  constructor
  · simp [noAttributes]
  · simp [exportObjFile, exportTrajectory, writeVertex, noAttributes, List.range_succ,
      List.foldlM_cons, bind, Except.bind]

/-- The file written for the two-point example and a second copy of it. -/
theorem export_twoPoints_twice :
    exportObjFile true [twoPoints, onePoint, twoPoints] =
      ExportOutcome.closed
        [ObjLine.v 1 2 3, ObjLine.vt 7, ObjLine.v 4 5 6, ObjLine.vt 8, ObjLine.g 0,
         ObjLine.l [1, 2], ObjLine.blank,
         ObjLine.v 1 2 3, ObjLine.vt 7, ObjLine.v 4 5 6, ObjLine.vt 8, ObjLine.g 1,
         ObjLine.l [3, 4], ObjLine.blank] := by
  simp [exportObjFile, exportTrajectory, writeVertex, writePolyline, twoPoints, onePoint,
    List.range_succ, List.foldlM_cons, bind, Except.bind, pure, Except.pure, List.range'_succ]

/-- The file written for one trajectory of three points with an attribute per point. -/
theorem export_three (p0 p1 p2 : Vec3) (a0 a1 a2 : ℚ) :
    exportObjFile true [{ positions := [p0, p1, p2], attributes := [[a0, a1, a2]] }] =
      ExportOutcome.closed
        [ObjLine.v p0.x p0.y p0.z, ObjLine.vt a0, ObjLine.v p1.x p1.y p1.z, ObjLine.vt a1,
         ObjLine.v p2.x p2.y p2.z, ObjLine.vt a2,
         ObjLine.g 0, ObjLine.l [1, 2, 3], ObjLine.blank] := by
  simp [exportObjFile, exportTrajectory, writeVertex, writePolyline, List.range_succ,
    List.foldlM_cons, bind, Except.bind, pure, Except.pure, List.range'_succ]

/-- C8 evaluated on the samples with the pressures 100, 500 and 1000: the value written
on each `vt` line is the pressure itself (100, 500, 1000), whatever the library
logarithm, while the `y` coordinate of the vertex before it is the normalized value,
which with the nearest `double` logarithms is 1, 2525223 / 8388608 (about 0.30103) and
11726323 / 281474976710656 (about 0.00000004). -/
theorem export_vt_is_pressure (log : ℚ → ℚ) :
    exportObjFile true (convertLatLonToCartesian log sampleLat sampleLon samplePressure 1 3) =
      ExportOutcome.closed
        [ObjLine.v (.finite 25)
           (mappedPoint log sampleLat sampleLon samplePressure 100 1000 0).y (.finite (-15)),
         ObjLine.vt 100,
         ObjLine.v (.finite 25)
           (mappedPoint log sampleLat sampleLon samplePressure 100 1000 1).y (.finite (-15)),
         ObjLine.vt 500,
         ObjLine.v (.finite 25)
           (mappedPoint log sampleLat sampleLon samplePressure 100 1000 2).y (.finite (-15)),
         ObjLine.vt 1000,
         ObjLine.g 0, ObjLine.l [1, 2, 3], ObjLine.blank] ∧
    exportObjFile true
        (convertLatLonToCartesian nearestLog sampleLat sampleLon samplePressure 1 3) =
      ExportOutcome.closed
        [ObjLine.v (.finite 25) (.finite 1) (.finite (-15)), ObjLine.vt 100,
         ObjLine.v (.finite 25) (.finite (2525223 / 8388608)) (.finite (-15)), ObjLine.vt 500,
         ObjLine.v (.finite 25) (.finite (11726323 / 281474976710656)) (.finite (-15)),
         ObjLine.vt 1000,
         ObjLine.g 0, ObjLine.l [1, 2, 3], ObjLine.blank] := by
  constructor
  · rw [convert_samplePressure, export_three,
      mappedPoint_eq log sampleLat sampleLon samplePressure 100 1000 0 _ _ _
        toFloat_sample_xz.1 rfl toFloat_sample_xz.2,
      mappedPoint_eq log sampleLat sampleLon samplePressure 100 1000 1 _ _ _
        toFloat_sample_xz.1 rfl toFloat_sample_xz.2,
      mappedPoint_eq log sampleLat sampleLon samplePressure 100 1000 2 _ _ _
        toFloat_sample_xz.1 rfl toFloat_sample_xz.2]
  · rw [convert_samplePressure, export_three, mappedPoint_samplePressure.1,
      mappedPoint_samplePressure.2.1, mappedPoint_samplePressure.2.2]
/-! ## Loader -/

/-- C9: when opening the file fails, `loadNetCdfFile` makes no library call but `nc_open`,
so that no dimension and no variable is read, and returns the empty collection. -/
theorem load_open_failure (nc : NetCDF) (log : ℚ → ℚ) (filename : String)
    (h : (nc.nc_open filename).1 ≠ 0) :
    loadNetCdfFile nc log filename =
      { calls := [NcCall.nc_open filename], returned := some [] } := by
  simp [loadNetCdfFile, h]

/-- Witness of C9: a library that cannot open the file. -/
theorem load_open_failure_witness :
    (noSuchFile.nc_open "trajectories.nc").1 ≠ 0 ∧
    loadNetCdfFile noSuchFile (fun q => q) "trajectories.nc" =
      { calls := [NcCall.nc_open "trajectories.nc"], returned := some [] } :=
  ⟨by decide, load_open_failure noSuchFile (fun q => q) "trajectories.nc" (by decide)⟩

/-- Once the file is open the loader does read: it starts with the dimension `time`. -/
theorem load_opened_reads :
    (loadNetCdfFile emptyFile (fun q => q) "trajectories.nc").calls.take 3 =
      [NcCall.nc_open "trajectories.nc", NcCall.nc_inq_dimid "time", NcCall.nc_inq_dimlen 0] ∧
    (loadNetCdfFile emptyFile (fun q => q) "trajectories.nc").calls.length = 28 ∧
    (loadNetCdfFile emptyFile (fun q => q) "trajectories.nc").returned = some [] := by
  refine ⟨?_, ?_, ?_⟩ <;> rfl

/-! ## Histograms -/

/-- Truncation toward zero of a non-negative float is its floor. -/
theorem tdiv_eq_floor (q : ℚ) (hq : 0 ≤ q) : q.num.tdiv q.den = ⌊q⌋ := by
  rw [Rat.floor_def, Int.tdiv_eq_ediv (Rat.num_nonneg.2 hq) (Int.ofNat_nonneg _)]

/-- The number 1 is left unchanged by the rounding to `float`. -/
theorem roundNearestEven_one : roundNearestEven 24 (-126) 1 = 1 := by
  simpa using roundNearestEven_intCast 24 (-126) 1 (by norm_num) (by norm_num)

/-- The bucket index from the roundings of its five `float` operations. -/
theorem bucketIndex_of_roundings (value mn mx : ℚ) (histogramRes : Int) (a b c s d : ℚ)
    (ha : toFloat (value - mn) = .finite a) (hb : toFloat (mx - mn) = .finite b) (hb0 : b ≠ 0)
    (hc : toFloat (a / b) = .finite c) (hs : toFloat ((histogramRes - 1 : Int) : ℚ) = .finite s)
    (hd : toFloat (c * s) = .finite d) :
    bucketIndex value (mn, mx) histogramRes =
      (static_cast_int32 (.finite d)).map (fun index => clamp index 0 255) := by
  unfold bucketIndex
  simp only [FloatValue.sub, ha, hb, FloatValue.div, if_neg hb0, hc, hs, FloatValue.mul, hd]
  generalize static_cast_int32 (.finite d) = r
  cases r <;> rfl

/-- The bucket index is undefined when both differences overflow. -/
theorem bucketIndex_of_overflow (value mn mx : ℚ) (histogramRes : Int) (negative negative2 : Bool)
    (ha : toFloat (value - mn) = .infinity negative)
    (hb : toFloat (mx - mn) = .infinity negative2) :
    bucketIndex value (mn, mx) histogramRes = none := by
  unfold bucketIndex
  simp only [FloatValue.sub, ha, hb, FloatValue.div, FloatValue.mul, static_cast_int32]

/-- The bucket index is undefined when the two bounds are equal. -/
theorem bucketIndex_of_equal_bounds (value bound : ℚ) (histogramRes : Int) :
    bucketIndex value (bound, bound) histogramRes = none := by
  unfold bucketIndex
  simp only [FloatValue.sub, sub_self, toFloat_zero]
  generalize toFloat (value - bound) = a
  generalize toFloat ((histogramRes - 1 : Int) : ℚ) = s
  have hq : FloatValue.div toFloat a (.finite 0) = .nan ∨
      ∃ negative, FloatValue.div toFloat a (.finite 0) = .infinity negative := by
    cases a with
    | finite q =>
      by_cases hq : q = 0
      · left
        simp [FloatValue.div, hq]
      · right
        exact ⟨decide (q < 0), by simp [FloatValue.div, hq]⟩
    | infinity negative =>
      right
      exact ⟨xor negative (decide ((0 : ℚ) < 0)), by simp [FloatValue.div]⟩
    | nan =>
      left
      rfl
  rcases hq with hq | ⟨negative, hq⟩
  · rw [hq]
    cases s <;> rfl
  · rw [hq]
    cases s with
    | finite q =>
      by_cases hq0 : q = 0 <;> simp [FloatValue.mul, hq0, static_cast_int32]
    | infinity negative2 => simp [FloatValue.mul, static_cast_int32]
    | nan => simp [FloatValue.mul, static_cast_int32]

/-- The `float` that `computeHistograms` casts lies between 0 and `histogramRes - 1` when
the two bounds are `float`s whose difference does not overflow and the value lies between
them. -/
theorem scaled_bounds (histogramRes : Int) (mn mx value : ℚ) (h1 : 1 ≤ histogramRes)
    (h255 : histogramRes ≤ 255) (hmn : IsFloat mn) (hmx : IsFloat mx) (hfin : mx - mn ≤ FLT_MAX)
    (hmm : mn < mx) (hlo : mn ≤ value) (hhi : value ≤ mx) :
    ∃ d : ℚ, FloatValue.mul toFloat
        (FloatValue.div toFloat (FloatValue.sub toFloat (.finite value) (.finite mn))
          (FloatValue.sub toFloat (.finite mx) (.finite mn)))
        (toFloat ((histogramRes - 1 : Int) : ℚ)) = .finite d ∧
      0 ≤ d ∧ d ≤ ((histogramRes - 1 : Int) : ℚ) := by
  have hF : (1 : ℚ) ≤ FLT_MAX := by norm_num [FLT_MAX]
  obtain ⟨hb, hbpos⟩ := toFloat_sub_pos mn mx hmn hmx hmm hfin
  have hv0 : 0 ≤ value - mn := sub_nonneg.2 hlo
  have hvle : value - mn ≤ mx - mn := by linarith
  obtain ⟨ha, ha0, _⟩ := toFloat_of_nonneg (value - mn) hv0 (hvle.trans hfin)
  have hab := roundNearestEven_mono 24 (-126) (by norm_num) hv0 hvle
  generalize roundNearestEven 24 (-126) (value - mn) = a at ha ha0 hab
  generalize roundNearestEven 24 (-126) (mx - mn) = b at hb hbpos hab
  have hq0 : 0 ≤ a / b := div_nonneg ha0 hbpos.le
  have hq1 : a / b ≤ 1 := (div_le_one hbpos).2 hab
  obtain ⟨hc, hc0, _⟩ := toFloat_of_nonneg (a / b) hq0 (hq1.trans hF)
  have hc1 := roundNearestEven_mono 24 (-126) (by norm_num) hq0 hq1
  rw [roundNearestEven_one] at hc1
  generalize roundNearestEven 24 (-126) (a / b) = c at hc hc0 hc1
  have hs0 : (0 : ℚ) ≤ ((histogramRes - 1 : Int) : ℚ) := by
    have : (0 : Int) ≤ histogramRes - 1 := by omega
    exact_mod_cast this
  have hs254 : ((histogramRes - 1 : Int) : ℚ) ≤ 254 := by
    have : histogramRes - 1 ≤ 254 := by omega
    exact_mod_cast this
  have habs : |histogramRes - 1| < 2 ^ 24 := by
    rw [abs_lt]
    constructor <;> omega
  have hs := toFloat_intCast (histogramRes - 1) habs
  have hp0 : 0 ≤ c * ((histogramRes - 1 : Int) : ℚ) := mul_nonneg hc0 hs0
  have hp1 : c * ((histogramRes - 1 : Int) : ℚ) ≤ ((histogramRes - 1 : Int) : ℚ) :=
    mul_le_of_le_one_left hs0 hc1
  have hF2 : ((histogramRes - 1 : Int) : ℚ) ≤ FLT_MAX := by
    have : (254 : ℚ) ≤ FLT_MAX := by norm_num [FLT_MAX]
    linarith
  obtain ⟨hd, hd0, _⟩ := toFloat_of_nonneg _ hp0 (hp1.trans hF2)
  have hd1 := roundNearestEven_mono 24 (-126) (by norm_num) hp0 hp1
  rw [roundNearestEven_intCast 24 (-126) (histogramRes - 1) (by exact_mod_cast habs)
    (by norm_num)] at hd1
  refine ⟨roundNearestEven 24 (-126) (c * ((histogramRes - 1 : Int) : ℚ)), ?_, hd0, hd1⟩
  simp only [FloatValue.sub, ha, hb, FloatValue.div, if_neg (ne_of_gt hbpos), hc, hs,
    FloatValue.mul, hd]

/-- The bucket index of a value between two `float` bounds whose difference does not
overflow exists and lies between 0 and `histogramRes - 1`. -/
theorem bucketIndex_bounds (histogramRes : Int) (mn mx value : ℚ) (h1 : 1 ≤ histogramRes)
    (h255 : histogramRes ≤ 255) (hmn : IsFloat mn) (hmx : IsFloat mx) (hfin : mx - mn ≤ FLT_MAX)
    (hmm : mn < mx) (hlo : mn ≤ value) (hhi : value ≤ mx) :
    ∃ index, bucketIndex value (mn, mx) histogramRes = some index ∧ 0 ≤ index ∧
      index < histogramRes := by
  obtain ⟨d, hd, hd0, hd1⟩ := scaled_bounds histogramRes mn mx value h1 h255 hmn hmx hfin hmm
    hlo hhi
  have hf0 : 0 ≤ ⌊d⌋ := Int.floor_nonneg.2 hd0
  have hf1 : ⌊d⌋ ≤ histogramRes - 1 := by
    have := Int.floor_mono hd1
    rwa [Int.floor_intCast] at this
  refine ⟨⌊d⌋, ?_, hf0, by omega⟩
  unfold bucketIndex
  simp only [hd, static_cast_int32, tdiv_eq_floor _ hd0]
  rw [if_pos (by constructor <;> omega)]
  simp only [clamp]
  rw [max_eq_left hf0, min_eq_left (by omega)]

/-- C10 (as amended): for `histogramRes` between 1 and 255, two `float` bounds `min < max`
whose difference is at most `FLT_MAX`, and a value between them, the bucket index of
`computeHistograms` exists, is at least 0 and is below `histogramRes`, so that the
increment stays inside a histogram of that length. -/
theorem bucketIndex_in_bounds_of_floats (histogramRes : Int) (mn mx value : ℚ)
    (h1 : 1 ≤ histogramRes) (h255 : histogramRes ≤ 255) (hmn : IsFloat mn) (hmx : IsFloat mx)
    (hfin : mx - mn ≤ FLT_MAX) (hmm : mn < mx) (hlo : mn ≤ value) (hhi : value ≤ mx) :
    ∃ index, bucketIndex value (mn, mx) histogramRes = some index ∧ 0 ≤ index ∧
      index < histogramRes ∧
      ∀ histogram : List ℚ, histogram.length = histogramRes.toNat →
        ∃ numBin, histogram[index.toNat]? = some numBin ∧
          incrementBucket histogram index = some (histogram.set index.toNat (numBin + 1)) := by
  obtain ⟨index, he, h0, hlt⟩ := bucketIndex_bounds histogramRes mn mx value h1 h255 hmn hmx
    hfin hmm hlo hhi
  refine ⟨index, he, h0, hlt, ?_⟩
  intro histogram hlen
  have hi : index.toNat < histogram.length := by
    rw [hlen]
    omega
  refine ⟨histogram[index.toNat], List.getElem?_eq_getElem hi, ?_⟩
  simp only [incrementBucket, if_neg (not_lt.2 h0), List.getElem?_eq_getElem hi]

/-- The numbers 0, 1 and 3 are `float`s. -/
theorem isFloat_small : IsFloat 0 ∧ IsFloat 1 ∧ IsFloat 3 := by
  refine ⟨toFloat_zero, ?_, ?_⟩
  · simpa using toFloat_intCast 1 (by norm_num)
  · simpa using toFloat_intCast 3 (by norm_num)

/-- Witness of C10 (as amended): the value 3/4 between 0 and 1 with 5 buckets. -/
theorem bucketIndex_in_bounds_of_floats_witness :
    ((1 : Int) ≤ 5 ∧ (5 : Int) ≤ 255 ∧ IsFloat 0 ∧ IsFloat 1 ∧ (1 : ℚ) - 0 ≤ FLT_MAX ∧
      (0 : ℚ) < 1 ∧ (0 : ℚ) ≤ 3 / 4 ∧ (3 / 4 : ℚ) ≤ 1) ∧
    ∃ index, bucketIndex (3 / 4) (0, 1) 5 = some index ∧ 0 ≤ index ∧ index < 5 ∧
      ∀ histogram : List ℚ, histogram.length = (5 : Int).toNat →
        ∃ numBin, histogram[index.toNat]? = some numBin ∧
          incrementBucket histogram index = some (histogram.set index.toNat (numBin + 1)) :=
  ⟨⟨by norm_num, by norm_num, isFloat_small.1, isFloat_small.2.1, by norm_num [FLT_MAX],
    by norm_num, by norm_num, by norm_num⟩,
   bucketIndex_in_bounds_of_floats 5 0 1 (3 / 4) (by norm_num) (by norm_num) isFloat_small.1
    isFloat_small.2.1 (by norm_num [FLT_MAX]) (by norm_num) (by norm_num) (by norm_num)⟩

/-- The number `FLT_MAX` and its negative are `float`s, and twice `FLT_MAX` overflows. -/
theorem toFloat_FLT_MAX :
    IsFloat FLT_MAX ∧ IsFloat (-FLT_MAX) ∧ toFloat (FLT_MAX - -FLT_MAX) = .infinity false := by
  refine ⟨?_, ?_, ?_⟩
  · have h := toFloat_mul_zpow (2 ^ 24 - 1) 104 (by norm_num) (by norm_num)
      (by rw [← FLT_MAX_eq]; rw [abs_of_pos (by norm_num [FLT_MAX])])
    rw [← FLT_MAX_eq] at h
    exact h
  · have he : -FLT_MAX = (((-(2 ^ 24 - 1) : Int) : ℚ)) * 2 ^ (104 : Int) := by
      norm_num [FLT_MAX]
    have h := toFloat_mul_zpow (-(2 ^ 24 - 1)) 104 (by norm_num) (by norm_num)
      (by rw [← he, abs_neg]; rw [abs_of_pos (by norm_num [FLT_MAX])])
    rw [← he] at h
    exact h
  · have he : FLT_MAX - -FLT_MAX = (((2 ^ 24 - 1 : Int) : ℚ)) * 2 ^ (105 : Int) := by
      norm_num [FLT_MAX]
    rw [toFloat, he, roundNearestEven_mul_zpow 24 (-126) _ 105 (by norm_num) (by norm_num),
      if_neg (by norm_num [FLT_MAX])]
    exact congrArg FloatValue.infinity (decide_eq_false (by norm_num))

/-- C10 (as stated) fails: with three buckets, the bounds `-FLT_MAX < FLT_MAX` and the
value `FLT_MAX` between them, both differences overflow to infinity, their quotient is a
NaN and the cast to `int32_t` is undefined, so that there is no bucket index. -/
theorem bucketIndex_overflows :
    ((1 : Int) ≤ 3 ∧ (3 : Int) ≤ 255 ∧ -FLT_MAX < FLT_MAX ∧ -FLT_MAX ≤ FLT_MAX ∧
      FLT_MAX ≤ FLT_MAX ∧ IsFloat (-FLT_MAX) ∧ IsFloat FLT_MAX) ∧
    bucketIndex FLT_MAX (-FLT_MAX, FLT_MAX) 3 = none :=
  ⟨⟨by norm_num, by norm_num, by norm_num [FLT_MAX], by norm_num [FLT_MAX], le_refl _,
    toFloat_FLT_MAX.2.1, toFloat_FLT_MAX.1⟩,
   bucketIndex_of_overflow FLT_MAX (-FLT_MAX) FLT_MAX 3 false false toFloat_FLT_MAX.2.2
    toFloat_FLT_MAX.2.2⟩

theorem foldl_max_spec (l : List ℚ) (init : ℚ) :
    init ≤ l.foldl max init ∧ (∀ x ∈ l, x ≤ l.foldl max init) ∧
      (l.foldl max init = init ∨ l.foldl max init ∈ l) := by
  induction l generalizing init with
  | nil => simp
  | cons a l ih =>
    rw [List.foldl_cons]
    obtain ⟨h1, h2, h3⟩ := ih (max init a)
    refine ⟨le_trans (le_max_left _ _) h1, ?_, ?_⟩
    · intro x hx
      rcases List.mem_cons.1 hx with rfl | hx
      · exact le_trans (le_max_right _ _) h1
      · exact h2 x hx
    · rcases h3 with h3 | h3
      · rcases max_choice init a with hm | hm
        · left; rw [h3, hm]
        · right; rw [h3, hm]; exact List.mem_cons_self _ _
      · right; exact List.mem_cons_of_mem _ h3

/-- Counting values that lie between two `float` bounds whose difference does not overflow
keeps the histogram at its length with non-negative buckets, and leaves a bucket of at
least 1 once a value has been counted. -/
theorem foldlM_countValue (histogramRes : Int) (mn mx : ℚ) (h1 : 1 ≤ histogramRes)
    (h255 : histogramRes ≤ 255) (hmn : IsFloat mn) (hmx : IsFloat mx) (hfin : mx - mn ≤ FLT_MAX)
    (hmm : mn < mx) :
    ∀ (var : List ℚ) (histogram : List ℚ), (∀ value ∈ var, mn ≤ value ∧ value ≤ mx) →
      histogram.length = histogramRes.toNat → (∀ numBin ∈ histogram, 0 ≤ numBin) →
      ∃ counted, var.foldlM (countValue (mn, mx) histogramRes) histogram = some counted ∧
        counted.length = histogramRes.toNat ∧ (∀ numBin ∈ counted, 0 ≤ numBin) ∧
        ((var ≠ [] ∨ ∃ numBin ∈ histogram, 1 ≤ numBin) → ∃ numBin ∈ counted, 1 ≤ numBin) := by
  intro var
  induction var with
  | nil =>
    intro histogram _ hlen hpos
    refine ⟨histogram, rfl, hlen, hpos, ?_⟩
    rintro (h | h)
    · exact absurd rfl h
    · exact h
  | cons value var ih =>
    intro histogram hr hlen hpos
    obtain ⟨index, he, h0, hlt⟩ := bucketIndex_bounds histogramRes mn mx value h1 h255 hmn hmx
      hfin hmm (hr value (List.mem_cons_self _ _)).1 (hr value (List.mem_cons_self _ _)).2
    have hi : index.toNat < histogram.length := by
      rw [hlen]
      omega
    have hstep : countValue (mn, mx) histogramRes histogram value =
        some (histogram.set index.toNat (histogram[index.toNat] + 1)) := by
      unfold countValue
      rw [he]
      simp only [incrementBucket, if_neg (not_lt.2 h0), List.getElem?_eq_getElem hi]
    have hbin : 0 ≤ histogram[index.toNat] := hpos _ (List.getElem_mem _)
    obtain ⟨counted, hc, hclen, hcpos, hcone⟩ := ih (histogram.set index.toNat (histogram[index.toNat] + 1))
      (fun v hv => hr v (List.mem_cons_of_mem _ hv)) (by rw [List.length_set]; exact hlen)
      (by
        intro numBin hmem
        rcases List.mem_or_eq_of_mem_set hmem with h | h
        · exact hpos _ h
        · rw [h]; linarith)
    refine ⟨counted, ?_, hclen, hcpos, fun _ => hcone (Or.inr ?_)⟩
    · rw [List.foldlM_cons, hstep]
      exact hc
    · refine ⟨histogram[index.toNat] + 1, ?_, by linarith⟩
      have := List.getElem_mem (l := histogram.set index.toNat (histogram[index.toNat] + 1))
        (n := index.toNat) (by rw [List.length_set]; exact hi)
      rwa [List.getElem_set_self] at this

/-- The histogram of a non-empty series whose values lie between two `float` bounds
`min < max` whose difference does not overflow, for a bucket count from 1 to 255: it is
computed without an undefined step, every bucket lies in [0, 1] and one bucket is 1. -/
theorem computeHistogram_normalized (var : List ℚ) (mn mx : ℚ) (histogramRes : Int)
    (h1 : 1 ≤ histogramRes) (h255 : histogramRes ≤ 255) (hmn : IsFloat mn) (hmx : IsFloat mx)
    (hfin : mx - mn ≤ FLT_MAX) (hmm : mn < mx) (hne : var ≠ [])
    (hr : ∀ value ∈ var, mn ≤ value ∧ value ≤ mx) :
    ∃ histogram, computeHistogram var (mn, mx) histogramRes = some histogram ∧
      histogram.length = histogramRes.toNat ∧
      (∀ numBin ∈ histogram, 0 ≤ numBin ∧ numBin ≤ 1) ∧ (1 : ℚ) ∈ histogram := by
  obtain ⟨counted, hc, hclen, hcpos, hcone⟩ := foldlM_countValue histogramRes mn mx h1 h255 hmn
    hmx hfin hmm var
    (List.replicate histogramRes.toNat 0) hr (by simp) (by
      intro numBin hmem
      rw [(List.mem_replicate.1 hmem).2])
  obtain ⟨x, hx, hx1⟩ := hcone (Or.inl hne)
  obtain ⟨_, hmax, hatt⟩ := foldl_max_spec counted 0
  have hpos : 0 < counted.foldl max 0 := lt_of_lt_of_le (by linarith) (hmax x hx)
  have hmem : counted.foldl max 0 ∈ counted := by
    rcases hatt with h | h
    · rw [h] at hpos
      exact absurd hpos (lt_irrefl _)
    · exact h
  refine ⟨counted.map (fun numBin => numBin / counted.foldl max 0), ?_, ?_, ?_, ?_⟩
  · have hneg : ¬ histogramRes < 0 := by omega
    simp only [computeHistogram, if_neg hneg, hc]
  · rw [List.length_map, hclen]
  · intro numBin hb
    obtain ⟨y, hy, rfl⟩ := List.mem_map.1 hb
    exact ⟨div_nonneg (hcpos y hy) (le_of_lt hpos), (div_le_one hpos).2 (hmax y hy)⟩
  · exact List.mem_map.2 ⟨_, hmem, div_self (ne_of_gt hpos)⟩

theorem mapM_option_some {α β : Type} (f : α → Option β) (P : β → Prop) :
    ∀ l : List α, (∀ a ∈ l, ∃ b, f a = some b ∧ P b) →
      ∃ bs, l.mapM f = some bs ∧ bs.length = l.length ∧ ∀ b ∈ bs, P b := by
  intro l
  induction l with
  | nil => intro _; exact ⟨[], by simp only [List.mapM_nil]; rfl, rfl, by simp⟩
  | cons a l ih =>
    intro h
    obtain ⟨b, hb, hP⟩ := h a (List.mem_cons_self _ _)
    obtain ⟨bs, hbs, hlen, hall⟩ := ih (fun x hx => h x (List.mem_cons_of_mem _ hx))
    refine ⟨b :: bs, by simp only [List.mapM_cons, hb, hbs]; rfl, by simp [hlen], ?_⟩
    intro x hx
    rcases List.mem_cons.1 hx with rfl | hx
    · exact hP
    · exact hall x hx

/-- After `setVariables` with a bucket count from 1 to 255, when every variable has two
`float` bounds `minAttribute < maxAttribute` whose difference does not overflow and a
non-empty series of values between them, every histogram has its buckets in [0, 1] and
one bucket equal to 1. -/
theorem setVariables_normalized (w : MultiVarWindow) (vars : List ImportanceCriterionAttribute)
    (names : List String) (h1 : 1 ≤ w.histogramRes) (h255 : w.histogramRes ≤ 255)
    (hv : ∀ var ∈ vars, IsFloat var.minAttribute ∧ IsFloat var.maxAttribute ∧
      var.maxAttribute - var.minAttribute ≤ FLT_MAX ∧
      var.minAttribute < var.maxAttribute ∧ var.attributes ≠ [] ∧
      ∀ value ∈ var.attributes, var.minAttribute ≤ value ∧ value ≤ var.maxAttribute) :
    ∃ w2, w.setVariables vars names = some w2 ∧ w2.histograms.length = vars.length ∧
      ∀ histogram ∈ w2.histograms,
        (∀ numBin ∈ histogram, 0 ≤ numBin ∧ numBin ≤ 1) ∧ (1 : ℚ) ∈ histogram := by
  obtain ⟨hs, hm, hlen, hall⟩ := mapM_option_some
    (MultiVarWindow.histogramOf { w with
      variables_ := vars
      names := names
      variablesMinMax := vars.map (fun var => (var.minAttribute, var.maxAttribute)) })
    (fun histogram => (∀ numBin ∈ histogram, 0 ≤ numBin ∧ numBin ≤ 1) ∧ (1 : ℚ) ∈ histogram)
    (List.range vars.length) (by
      intro v hvr
      have hlt : v < vars.length := List.mem_range.1 hvr
      obtain ⟨hmn, hmx, hfin, hmm, hne, hr⟩ := hv vars[v] (List.getElem_mem _)
      obtain ⟨histogram, hc, _, hb, hone⟩ := computeHistogram_normalized vars[v].attributes
        vars[v].minAttribute vars[v].maxAttribute w.histogramRes h1 h255 hmn hmx hfin hmm hne hr
      refine ⟨histogram, ?_, hb, hone⟩
      simp only [MultiVarWindow.histogramOf, List.getElem?_map, List.getElem?_eq_getElem hlt,
        Option.map_some']
      exact hc)
  refine ⟨{ w with
      variables_ := vars
      names := names
      variablesMinMax := vars.map (fun var => (var.minAttribute, var.maxAttribute))
      histograms := hs }, ?_, ?_, hall⟩
  · simp only [MultiVarWindow.setVariables, MultiVarWindow.computeHistograms]
    rw [hm]
  · simpa using hlen

/-- Witness of the normalization lemma: five values in four buckets. -/
theorem computeHistogram_normalized_witness :
    ((1 : Int) ≤ 4 ∧ (4 : Int) ≤ 255 ∧ IsFloat 0 ∧ IsFloat 3 ∧ (3 : ℚ) - 0 ≤ FLT_MAX ∧
      (0 : ℚ) < 3 ∧ fiveValues.attributes ≠ [] ∧
      ∀ value ∈ fiveValues.attributes, (0 : ℚ) ≤ value ∧ value ≤ 3) ∧
    ∃ histogram, computeHistogram fiveValues.attributes (0, 3) 4 = some histogram ∧
      histogram.length = (4 : Int).toNat ∧
      (∀ numBin ∈ histogram, 0 ≤ numBin ∧ numBin ≤ 1) ∧ (1 : ℚ) ∈ histogram :=
  have hr : ∀ value ∈ fiveValues.attributes, (0 : ℚ) ≤ value ∧ value ≤ 3 := by
    intro value hv
    simp only [fiveValues, List.mem_cons, List.mem_singleton, List.not_mem_nil, or_false] at hv
    rcases hv with rfl | rfl | rfl | rfl | rfl <;> norm_num
  ⟨⟨by norm_num, by norm_num, isFloat_small.1, isFloat_small.2.2, by norm_num [FLT_MAX],
    by norm_num, by simp [fiveValues], hr⟩,
   computeHistogram_normalized fiveValues.attributes 0 3 4 (by norm_num) (by norm_num)
    isFloat_small.1 isFloat_small.2.2 (by norm_num [FLT_MAX]) (by norm_num)
    (by simp [fiveValues]) hr⟩

/-- The numbers 1 and 2 as `float`s. -/
theorem toFloat_one_two : toFloat 1 = .finite 1 ∧ toFloat 2 = .finite 2 := by
  constructor
  · simpa using toFloat_intCast 1 (by norm_num)
  · simpa using toFloat_intCast 2 (by norm_num)

/-- A histogram whose first value has no defined bucket is not defined. -/
theorem computeHistogram_of_first_undefined (value : ℚ) (var : List ℚ) (minMax : ℚ × ℚ)
    (histogramRes : Int) (hres : 0 ≤ histogramRes)
    (h : countValue minMax histogramRes (List.replicate histogramRes.toNat 0) value = none) :
    computeHistogram (value :: var) minMax histogramRes = none := by
  unfold computeHistogram
  rw [if_neg (not_lt.2 hres), List.foldlM_cons, h]
  rfl

/-- When the histogram of the first variable is not defined, `setVariables` has no defined
result. -/
theorem setVariables_of_first_undefined (w : MultiVarWindow) (var : ImportanceCriterionAttribute)
    (vars : List ImportanceCriterionAttribute) (names : List String)
    (h : computeHistogram var.attributes (var.minAttribute, var.maxAttribute) w.histogramRes =
      none) :
    w.setVariables (var :: vars) names = none := by
  have hfirst : MultiVarWindow.histogramOf
      { w with
        variables_ := var :: vars
        names := names
        variablesMinMax := (var :: vars).map (fun var => (var.minAttribute, var.maxAttribute)) }
      0 = none := by
    simp only [MultiVarWindow.histogramOf, List.map_cons, List.getElem?_cons_zero]
    exact h
  unfold MultiVarWindow.setVariables MultiVarWindow.computeHistograms
  have hr : List.range (var :: vars).length = 0 :: (List.range vars.length).map Nat.succ := by
    rw [List.length_cons, List.range_succ_eq_map]
  simp only [hr, List.mapM_cons, hfirst]
  rfl

/-- C5 evaluated at the failing input: with two buckets and a variable whose value 2 lies
above its `maxAttribute` 1, the bucket index is 2, `histogram[2]++` is outside the
histogram of two buckets, and `computeHistograms` has no defined result; a variable with
`minAttribute = maxAttribute` divides by zero before the cast and has none either. -/
theorem computeHistograms_out_of_bounds :
    bucketIndex 2 (0, 1) 2 = some 2 ∧ incrementBucket [0, 0] 2 = none ∧
    twoBuckets.setVariables [aboveMax] ["pressure"] = none ∧
    twoBuckets.setVariables [constantFive] ["pressure"] = none := by
  have hb : bucketIndex 2 (0, 1) 2 = some 2 := by
    rw [bucketIndex_of_roundings 2 0 1 2 2 1 2 1 2 (by rw [sub_zero]; exact toFloat_one_two.2)
      (by rw [sub_zero]; exact toFloat_one_two.1) one_ne_zero
      (by rw [div_one]; exact toFloat_one_two.2) (by norm_num; exact toFloat_one_two.1)
      (by rw [mul_one]; exact toFloat_one_two.2)]
    norm_num [static_cast_int32, clamp]
  have hi : incrementBucket [0, 0] 2 = none := by simp [incrementBucket]
  refine ⟨hb, hi, ?_, ?_⟩
  · apply setVariables_of_first_undefined
    apply computeHistogram_of_first_undefined 2 [] (0, 1) 2 (by norm_num)
    unfold countValue
    rw [hb]
    exact hi
  · apply setVariables_of_first_undefined
    apply computeHistogram_of_first_undefined 5 [5] (5, 5) 2 (by norm_num)
    unfold countValue
    rw [bucketIndex_of_equal_bounds]
/-! ## Normalized logarithm of the pressure -/

/-- C11 evaluated at two inputs, with the nearest `double` logarithms. For the pressures
100, 500 and 1000 the sample at the maximum pressure has `y = 11726323 / 281474976710656`,
about 0.00000004, and not 0. For the pressures 5 and 7 the sample at the minimum pressure
has `y = 8388609 / 8388608`, above 1, and the sample at the maximum pressure has
`y = -11060581 / 70368744177664`, below 0. -/
theorem normalized_log_pressure_outside_unit :
    ((convertLatLonToCartesian nearestLog sampleLat sampleLon samplePressure 1 3).map
          (fun trajectory => trajectory.positions.map (fun pt => pt.y)) =
        [[.finite 1, .finite (2525223 / 8388608), .finite (11726323 / 281474976710656)]] ∧
      (11726323 / 281474976710656 : ℚ) ≠ 0) ∧
    ((convertLatLonToCartesian nearestLog sampleLat sampleLon fiveSeven 1 2).map
          (fun trajectory => trajectory.positions.map (fun pt => pt.y)) =
        [[.finite (8388609 / 8388608), .finite (-11060581 / 70368744177664)]] ∧
      (1 : ℚ) < 8388609 / 8388608 ∧ (-11060581 / 70368744177664 : ℚ) < 0) := by
  refine ⟨⟨?_, by norm_num⟩, ?_, by norm_num, by norm_num⟩
  · rw [convert_samplePressure, mappedPoint_samplePressure.1, mappedPoint_samplePressure.2.1,
      mappedPoint_samplePressure.2.2]
    rfl
  · rw [convert_fiveSeven, mappedPoint_fiveSeven.1, mappedPoint_fiveSeven.2]
    rfl

end PixelSyncOIT
